import Mathlib

/-!
# ltuserserver: session retry, script cache and runner, connection pool

A shallow embedding of `src/util/util.go` (RedisSession, RedisConnectionPool)
and `src/script/script.go` (Script, ScriptFile) together with the properties
proved about them.

Conventions of the embedding.

* A Go `string` and a Go `[]byte` are both finite byte sequences (`GoString`).
* A Go `error` is a `GoError`; the sentinel `io.EOF` is its own constructor, so
  that `r.Err == io.EOF` is an identity test and not a comparison of messages.
* A Go pointer that may be nil is an `Option`.
* Everything outside the process is an oracle that is consumed in order: the
  transport of a session answers the commands written on it one after the
  other, the file system answers the successive `os.Open` calls, the network
  answers the successive dial attempts.
* Every effect the properties speak about is appended to a log carried by the
  state (commands written, close, reconnect, file system calls).
* Calls to the logger (`Logging.Printf`) have no influence on control flow and
  are left out.
-/

namespace LtUserServer

/-! ## Go values -/

/-- One byte. -/
abbrev Byte := Fin 256

/-- A Go string or byte slice: a finite sequence of bytes. -/
abbrev GoString := List Byte

/-- The bytes of a string literal of the source (all literals used are ASCII). -/
def ascii (s : String) : GoString :=
  s.data.map (fun c => Fin.ofNat c.toNat)

/-- Go `strings.HasPrefix`, here `startsWith`: `p` is an initial segment of the
first argument. -/
def startsWith : GoString → GoString → Bool
  | _, [] => true
  | [], _ :: _ => false
  | a :: s, b :: p => a == b && startsWith s p

/-- Go `strings.Contains`: `substr` occurs in `s` as a contiguous block. -/
def Contains : GoString → GoString → Bool
  | [], substr => startsWith [] substr
  | c :: s, substr => startsWith (c :: s) substr || Contains s substr

/-- A Go `error` value. `EOF` is the sentinel `io.EOF`; every other error is
known by its message only. -/
inductive GoError where
  | EOF
  | other (msg : GoString)
  deriving DecidableEq, Repr

/-- The method `Error()` of a Go error. -/
def GoError.Error : GoError → GoString
  | GoError.EOF => ascii "EOF"
  | GoError.other msg => msg

/-- An element of a `[]interface{}` argument list. -/
inductive Value where
  | str (s : GoString)
  | int (i : Int)
  deriving DecidableEq, Repr

/-- The result of running a Go function in the embedding. -/
inductive Outcome (α : Type) where
  /-- the function returned -/
  | ret (a : α)
  /-- a run-time panic: nil dereference or index out of range -/
  | panic
  /-- the recursion budget given to the model was used up -/
  | outOfFuel
  deriving DecidableEq, Repr

/-! ## radix `redis.Reply` -/

/-- The constants `redis.ReplyType`. -/
inductive ReplyType where
  | StatusReply
  | ErrorReply
  | IntegerReply
  | NilReply
  | BulkReply
  | MultiReply
  deriving DecidableEq, Repr

/-- The fields of `redis.Reply` the code reads (`Type`, here `Type_`, and `Err`)
and its payload. -/
structure Reply where
  Type_ : ReplyType
  Err : Option GoError
  buf : GoString
  deriving DecidableEq, Repr

/-! ## `util.RedisSession` -/

/-- What a session does on its connection, in order. -/
inductive ConnEvent where
  /-- a call `s.SendCommand(commandName, args...)`: one logical command -/
  | sendCommand (commandName : GoString) (args : List Value)
  /-- `s.RedisConn.Cmd(commandName, args...)`: the command written on the wire -/
  | cmd (commandName : GoString) (args : List Value)
  /-- `s.Close()` -/
  | close
  /-- `s.Connect()` -/
  | connect
  deriving DecidableEq, Repr

/-- A `RedisSession` whose `RedisConn` is set. `transport n` is the reply the
connection will give to the `n`-th command written from now on, `dial n` the
outcome of the `n`-th `redis.Dial` from now on (`none`: connected); `log` holds
what was done so far. -/
structure RedisSession where
  RedisAddr : GoString
  transport : Nat → Reply
  dial : Nat → Option GoError
  log : List ConnEvent

/-- The call `s.RedisConn.Cmd(commandName, args...)`: the command is written
and the next reply of the transport is read. -/
def RedisSession.RedisConnCmd (s : RedisSession) (commandName : GoString)
    (args : List Value) : RedisSession × Reply :=
  ({ s with transport := fun n => s.transport (n + 1),
            log := s.log ++ [ConnEvent.cmd commandName args] },
   s.transport 0)

/-- The method `Close`. -/
def RedisSession.Close (s : RedisSession) : RedisSession :=
  { s with log := s.log ++ [ConnEvent.close] }

/-- The error `Connect` makes of a failed dial:
`fmt.Errorf("Connect redis server %s failed,%s ", s.RedisAddr, e.Error())`. -/
def connectError (RedisAddr : GoString) (e : GoError) : GoError :=
  GoError.other
    (ascii "Connect redis server " ++ RedisAddr ++ ascii " failed," ++ e.Error ++ ascii " ")

/-- The method `Connect`: one dial; a failure is wrapped by `fmt.Errorf`. -/
def RedisSession.Connect (s : RedisSession) : RedisSession × Option GoError :=
  ({ s with dial := fun n => s.dial (n + 1), log := s.log ++ [ConnEvent.connect] },
   match s.dial 0 with
   | some e => some (connectError s.RedisAddr e)
   | none => none)

/-- The loop of `SendCommand`, with `n` iterations left (`n = 3 - i`) and `r`
the reply held so far. -/
def RedisSession.SendCommandLoop (commandName : GoString) (args : List Value) :
    Nat → RedisSession → Option Reply → RedisSession × Option Reply
  | 0, s, r => (s, r)
  | n + 1, s, _ =>
    let (s1, r) := s.RedisConnCmd commandName args
    if r.Err ≠ none ∧ r.Err = some GoError.EOF then
      RedisSession.SendCommandLoop commandName args n s1.Close.Connect.1 (some r)
    else
      (s1, some r)

/-- The method `SendCommand`: at most three attempts. -/
def RedisSession.SendCommand (s : RedisSession) (commandName : GoString)
    (args : List Value) : RedisSession × Option Reply :=
  RedisSession.SendCommandLoop commandName args 3
    { s with log := s.log ++ [ConnEvent.sendCommand commandName args] } none

/-- The logical commands of a log: the calls of `SendCommand`, in order. -/
def sentCommands (log : List ConnEvent) : List (GoString × List Value) :=
  log.filterMap (fun ev => match ev with
    | ConnEvent.sendCommand commandName args => some (commandName, args)
    | _ => none)

/-- The commands a log shows on the wire, in order. -/
def wireCommands (log : List ConnEvent) : List (GoString × List Value) :=
  log.filterMap (fun ev => match ev with
    | ConnEvent.cmd commandName args => some (commandName, args)
    | _ => none)

/-! ## `crypto/sha1` and `encoding/hex` -/

/-- Rotation of a 32-bit word to the left by `n` bits, `0 < n < 32`. -/
def rotl32 (n x : Nat) : Nat :=
  ((x <<< n) % 2 ^ 32) ||| ((x % 2 ^ 32) >>> (32 - n))

/-- The big-endian 32-bit word made of four bytes. -/
def word32 (b0 b1 b2 b3 : Byte) : Nat :=
  b0.val * 2 ^ 24 + b1.val * 2 ^ 16 + b2.val * 2 ^ 8 + b3.val

/-- The four bytes of a 32-bit word, big-endian. -/
def bytes32 (w : Nat) : List Byte :=
  [Fin.ofNat (w / 2 ^ 24), Fin.ofNat (w / 2 ^ 16), Fin.ofNat (w / 2 ^ 8), Fin.ofNat w]

/-- The padding of SHA-1: a bit 1, zeros up to 56 modulo 64 bytes, and the
length of the message in bits on 64 bits, big-endian. -/
def sha1Pad (msg : List Byte) : List Byte :=
  let bits := (8 * msg.length) % 2 ^ 64
  msg ++ [(128 : Byte)] ++ List.replicate ((119 - msg.length % 64) % 64) (0 : Byte)
    ++ bytes32 (bits / 2 ^ 32) ++ bytes32 (bits % 2 ^ 32)

/-- The words of a byte sequence whose length is a multiple of four. -/
def toWords : List Byte → List Nat
  | b0 :: b1 :: b2 :: b3 :: rest => word32 b0 b1 b2 b3 :: toWords rest
  | _ => []

/-- The message schedule, kept in reverse: `n` more words are added to `rev`,
whose head is the word computed last. -/
def sha1Schedule : Nat → List Nat → List Nat
  | 0, rev => rev
  | n + 1, rev =>
    sha1Schedule n
      (rotl32 1 (rev.getD 2 0 ^^^ rev.getD 7 0 ^^^ rev.getD 13 0 ^^^ rev.getD 15 0) :: rev)

/-- The five chaining words of SHA-1. -/
structure Sha1State where
  a : Nat
  b : Nat
  c : Nat
  d : Nat
  e : Nat
  deriving DecidableEq, Repr

/-- Round `i` of the compression function on the schedule word `w`. -/
def sha1Round (st : Sha1State) (i w : Nat) : Sha1State :=
  let f :=
    if i < 20 then (st.b &&& st.c) ||| ((st.b ^^^ (2 ^ 32 - 1)) &&& st.d)
    else if i < 40 then st.b ^^^ st.c ^^^ st.d
    else if i < 60 then (st.b &&& st.c) ||| (st.b &&& st.d) ||| (st.c &&& st.d)
    else st.b ^^^ st.c ^^^ st.d
  let k :=
    if i < 20 then 0x5A827999
    else if i < 40 then 0x6ED9EBA1
    else if i < 60 then 0x8F1BBCDC
    else 0xCA62C1D6
  { a := (rotl32 5 st.a + f + st.e + k + w) % 2 ^ 32,
    b := st.a,
    c := rotl32 30 st.b,
    d := st.c,
    e := st.d }

/-- The rounds of one block, from round `i` on. -/
def sha1Rounds : Sha1State → Nat → List Nat → Sha1State
  | st, _, [] => st
  | st, i, w :: ws => sha1Rounds (sha1Round st i w) (i + 1) ws

/-- One 64-byte block folded into the chaining state. -/
def sha1Block (h : Sha1State) (block : List Byte) : Sha1State :=
  let w := (sha1Schedule 64 (toWords block).reverse).reverse
  let r := sha1Rounds h 0 w
  { a := (h.a + r.a) % 2 ^ 32,
    b := (h.b + r.b) % 2 ^ 32,
    c := (h.c + r.c) % 2 ^ 32,
    d := (h.d + r.d) % 2 ^ 32,
    e := (h.e + r.e) % 2 ^ 32 }

/-- The blocks of a padded message, `n` of them. -/
def sha1Blocks : Nat → Sha1State → List Byte → Sha1State
  | 0, h, _ => h
  | n + 1, h, bytes => sha1Blocks n (sha1Block h (bytes.take 64)) (bytes.drop 64)

/-- The digest `sha1.New(); h.Write(b); h.Sum(nil)`: twenty bytes. -/
def sha1Sum (b : List Byte) : List Byte :=
  let padded := sha1Pad b
  let h := sha1Blocks (padded.length / 64)
    { a := 0x67452301, b := 0xEFCDAB89, c := 0x98BADCFE, d := 0x10325476, e := 0xC3D2E1F0 }
    padded
  bytes32 h.a ++ bytes32 h.b ++ bytes32 h.c ++ bytes32 h.d ++ bytes32 h.e

/-- The lowercase hexadecimal digit of a value below sixteen. -/
def hexDigit (n : Nat) : Byte :=
  (ascii "0123456789abcdef").getD n 0

/-- Go `hex.EncodeToString`: two lowercase digits for every byte. -/
def hexEncodeToString : List Byte → GoString
  | [] => []
  | b :: rest => hexDigit (b.val / 16) :: hexDigit (b.val % 16) :: hexEncodeToString rest

/-! ## The file system as `script.go` uses it -/

/-- The instant of a `time.Time`; `Equal` compares instants. -/
abbrev Time := Int

/-- Go `Time.Equal`. -/
def Time.Equal (t u : Time) : Bool := decide (t = u)

/-- An opened `*os.File`: what `Stat().ModTime()` and `ioutil.ReadAll` will
give on it. -/
structure File where
  name : GoString
  Stat : Except GoError Time
  ReadAll : Except GoError GoString

/-- A call to the file system. -/
inductive FsEvent where
  /-- `os.Open(name)` -/
  | open (name : GoString)
  /-- `f.Stat()` on the file opened as `name` -/
  | stat (name : GoString)
  /-- `ioutil.ReadAll(f)` on the file opened as `name` -/
  | readAll (name : GoString)
  deriving DecidableEq, Repr

/-- The file system. `disk n name` is what the `n`-th `os.Open` from now on
finds under `name`; `log` holds the calls made so far. -/
structure FileSystem where
  disk : Nat → GoString → Except GoError File
  log : List FsEvent

/-- Go `os.Open`. -/
def FileSystem.Open (fs : FileSystem) (name : GoString) :
    FileSystem × Except GoError File :=
  ({ disk := fun n => fs.disk (n + 1), log := fs.log ++ [FsEvent.open name] },
   fs.disk 0 name)

/-- Go `f.Stat()` followed by `ModTime()`. -/
def FileSystem.Stat (fs : FileSystem) (f : File) : FileSystem × Except GoError Time :=
  ({ fs with log := fs.log ++ [FsEvent.stat f.name] }, f.Stat)

/-- Go `ioutil.ReadAll(f)`. -/
def FileSystem.ReadAll (fs : FileSystem) (f : File) :
    FileSystem × Except GoError GoString :=
  ({ fs with log := fs.log ++ [FsEvent.readAll f.name] }, f.ReadAll)

/-- The number of `ioutil.ReadAll` calls in a log: the disk loads. -/
def diskLoads (log : List FsEvent) : Nat :=
  log.countP (fun ev => match ev with
    | FsEvent.readAll _ => true
    | _ => false)

/-- The number of `os.Open` calls in a log. -/
def diskOpens (log : List FsEvent) : Nat :=
  log.countP (fun ev => match ev with
    | FsEvent.open _ => true
    | _ => false)

/-! ## `script.ScriptFile` and `script.Script` -/

/-- The struct `ScriptFile`. -/
structure ScriptFile where
  LastModTime : Time
  PathFile : GoString
  Buffer : GoString
  ScriptSHA1 : GoString
  deriving DecidableEq, Repr

/-- The struct `Script`; `ScriptBuf` is the map from names to entries. -/
structure Script where
  Path : GoString
  ScriptBuf : GoString → Option ScriptFile

/-- The assignment `m[name] = F` on a map. -/
def mapSet (m : GoString → Option ScriptFile) (name : GoString) (F : ScriptFile) :
    GoString → Option ScriptFile :=
  fun k => if k = name then some F else m k

/-- The method `Script.Load`. -/
def Script.Load (S : Script) (fs : FileSystem) (name : GoString) :
    Script × FileSystem × Option ScriptFile × Option GoError :=
  let scriptFile := S.Path ++ ascii "/" ++ name
  match fs.Open scriptFile with
  | (fs1, Except.error e) => (S, fs1, none, some e)
  | (fs1, Except.ok f) =>
    match fs1.Stat f with
    | (fs2, Except.error e) => (S, fs2, none, some e)
    | (fs2, Except.ok LastTime) =>
      match fs2.ReadAll f with
      | (fs3, Except.ok b) =>
        let F : ScriptFile :=
          { LastModTime := LastTime, PathFile := scriptFile, Buffer := b,
            ScriptSHA1 := hexEncodeToString (sha1Sum b) }
        ({ S with ScriptBuf := mapSet S.ScriptBuf name F }, fs3, some F, none)
      | (fs3, Except.error e) => (S, fs3, none, some e)

/-- The method `ScriptFile.IsModfiy`, with its named results `(b, err)`. -/
def ScriptFile.IsModfiy (S : ScriptFile) (fs : FileSystem) :
    FileSystem × Bool × Option GoError :=
  match fs.Open S.PathFile with
  | (fs1, Except.error e) => (fs1, false, some e)
  | (fs1, Except.ok f) =>
    match fs1.Stat f with
    | (fs2, Except.error e) => (fs2, false, some e)
    | (fs2, Except.ok LastTime) => (fs2, !(Time.Equal LastTime S.LastModTime), none)

/-- The method `ScriptFile.Cmd`. `fuel` bounds the depth of the recursion: each
call that reaches `SendCommand` uses one unit. -/
def ScriptFile.Cmd (F : ScriptFile) :
    Nat → GoString → RedisSession → List Value →
      RedisSession × Outcome (Option Reply × Option GoError)
  | 0, _, redisSession, _ => (redisSession, Outcome.outOfFuel)
  | fuel + 1, cmd, redisSession, v =>
    match redisSession.SendCommand cmd v with
    | (s1, none) => (s1, Outcome.panic)
    | (s1, some r) =>
      if r.Type_ = ReplyType.ErrorReply then
        match r.Err with
        | none => (s1, Outcome.panic)
        | some err =>
          if Contains err.Error (ascii "NOSCRIPT") then
            match v with
            | [] => (s1, Outcome.panic)
            | _ :: rest => F.Cmd fuel (ascii "eval") s1 (Value.str F.Buffer :: rest)
          else
            (s1, Outcome.ret (none, some err))
      else
        (s1, Outcome.ret (some r, none))

/-- The state after a call of `Script.Run` and what the call gave. -/
structure RunResult where
  S : Script
  fs : FileSystem
  redisSession : RedisSession
  out : Outcome (Option Reply × Option GoError)

/-- The last three lines of `Script.Run`: the argument list is built from the
hash of `F` and the caller's arguments, and `evalsha` is sent. -/
def Script.RunSend (S : Script) (fs : FileSystem) (fuel : Nat) (redisSession : RedisSession)
    (F : ScriptFile) (args : List Value) : RunResult :=
  let a := [Value.str F.ScriptSHA1] ++ args
  let (s1, out) := F.Cmd fuel (ascii "evalsha") redisSession a
  { S := S, fs := fs, redisSession := s1, out := out }

/-- Lines 97 to 109 of `Script.Run`: the entry `F` for `name`, loaded when the
map has none, checked and reloaded when it has one; `(nil, err)` where `Run`
returns early. -/
def Script.RunLookup (S : Script) (fs : FileSystem) (name : GoString) :
    Script × FileSystem × Option ScriptFile × Option GoError :=
  match S.ScriptBuf name with
  | none => S.Load fs name
  | some F =>
    match F.IsModfiy fs with
    | (fs1, _, some e) => (S, fs1, none, some e)
    | (fs1, true, none) => S.Load fs1 name
    | (fs1, false, none) => (S, fs1, some F, none)

/-- The method `Script.Run`. -/
def Script.Run (S : Script) (fs : FileSystem) (fuel : Nat) (redisSession : RedisSession)
    (name : GoString) (args : List Value) : RunResult :=
  match S.RunLookup fs name with
  | (S1, fs1, _, some err) =>
    { S := S1, fs := fs1, redisSession := redisSession, out := Outcome.ret (none, some err) }
  | (S1, fs1, none, none) =>
    { S := S1, fs := fs1, redisSession := redisSession, out := Outcome.panic }
  | (S1, fs1, some F, none) => S1.RunSend fs1 fuel redisSession F args

/-- The function `New`: a trailing slash of `Path` is dropped; an empty `Path`
makes `Path[len(Path)-1]` panic. -/
def Script.New (Path : GoString) : Outcome Script :=
  match Path.getLast? with
  | none => Outcome.panic
  | some c =>
    if c = (47 : Byte) then Outcome.ret { Path := Path.dropLast, ScriptBuf := fun _ => none }
    else Outcome.ret { Path := Path, ScriptBuf := fun _ => none }

/-- The hash of every entry of the map is the hexadecimal SHA-1 of its
content. -/
def Script.hashed (S : Script) : Prop :=
  ∀ name F, S.ScriptBuf name = some F → F.ScriptSHA1 = hexEncodeToString (sha1Sum F.Buffer)

/-! ## `util.RedisConnectionPool` -/

/-- What the network holds for one session: the replies of its connection and
the outcomes of its dials. -/
structure Network where
  transport : Nat → Reply
  dial : Nat → Option GoError

/-- The function `NewRedisSession`; the address is `fmt.Sprintf("%s:%d", host, port)`. -/
def NewRedisSession (host : GoString) (port : Int) (net : Network) : RedisSession :=
  { RedisAddr := host ++ ascii ":" ++ ascii (toString port),
    transport := net.transport,
    dial := net.dial,
    log := [] }

/-- A non-nil `*RedisSession` of a pool: the index of the session in
`r.Sessions`. Sessions made by different calls of `NewRedisSession` are
different objects. -/
abbrev SessionPtr := Nat

/-- The struct `RedisConnectionPool` (the channels are the steps below). -/
structure RedisConnectionPool where
  Sessions : List (Option RedisSession)
  MaxConn : Nat
  Host : GoString
  Port : Int

/-- The function `NewRedisConnectionPool`: `maxConn` nil sessions. -/
def NewRedisConnectionPool (maxConn : Nat) (host : GoString) (port : Int) :
    RedisConnectionPool :=
  { Sessions := List.replicate maxConn none, MaxConn := maxConn, Host := host, Port := port }

/-- The goroutine `Run` when it has left its first loop. -/
structure PoolRun where
  /-- `r.Sessions` -/
  Sessions : List (Option RedisSession)
  /-- the indices on which `Connect` was called, in order -/
  attempts : List Nat
  /-- the value sent on `InitChan` -/
  e : Option GoError
  /-- the free list -/
  freeList : List SessionPtr

/-- The first loop of `Run`, at index `i` with `n = len(r.Sessions) - i`
iterations left. -/
def RedisConnectionPool.RunConnect (host : GoString) (port : Int) (nets : Nat → Network) :
    Nat → Nat → PoolRun → PoolRun
  | 0, _, st => st
  | n + 1, i, st =>
    match (NewRedisSession host port (nets i)).Connect with
    | (s, some e) =>
      { st with Sessions := st.Sessions.set i (some s), attempts := st.attempts ++ [i],
                e := some e }
    | (s, none) =>
      RedisConnectionPool.RunConnect host port nets n (i + 1)
        { st with Sessions := st.Sessions.set i (some s), attempts := st.attempts ++ [i],
                  freeList := st.freeList ++ [i] }

/-- The method `Run` up to `r.InitChan <- e`. -/
def RedisConnectionPool.RunInit (r : RedisConnectionPool) (nets : Nat → Network) : PoolRun :=
  RedisConnectionPool.RunConnect r.Host r.Port nets r.Sessions.length 0
    { Sessions := r.Sessions, attempts := [], e := none, freeList := [] }

/-- The method `Init`: the value `Run` sends on `InitChan`. -/
def RedisConnectionPool.Init (r : RedisConnectionPool) (nets : Nat → Network) :
    Option GoError :=
  (r.RunInit nets).e

/-- The free list with which `Run` enters its second loop; `none` when `Run`
returns after `r.InitChan <- e` because `e != nil`. -/
def RedisConnectionPool.RunBroker (r : RedisConnectionPool) (nets : Nat → Network) :
    Option (List SessionPtr) :=
  match (r.RunInit nets).e with
  | some _ => none
  | none => some (r.RunInit nets).freeList

/-- The case `r.WChan <- t` of the broker: `t` is the front of the free list
or nil, and a non-nil `t` is removed. -/
def brokerSend (freeList : List SessionPtr) : Option SessionPtr × List SessionPtr :=
  match freeList with
  | [] => (none, [])
  | t :: rest => (some t, rest)

/-- The case `s := <-r.RChan` of the broker: `freeList.PushBack(s)`. -/
def brokerRecv (freeList : List SessionPtr) (s : SessionPtr) : List SessionPtr :=
  freeList ++ [s]

/-- The method `Release` seen from the free list: a non-nil session is sent on
`RChan`, a nil one is logged. -/
def RedisConnectionPool.Release (freeList : List SessionPtr) (s : Option SessionPtr) :
    List SessionPtr :=
  match s with
  | some p => brokerRecv freeList p
  | none => freeList

/-- A caller of the pool. -/
abbrev Caller := Nat

/-- The broker and its callers: the free list, and the sessions `Acquire` has
returned to a caller and which that caller has not released since. -/
structure PoolState where
  freeList : List SessionPtr
  held : List (Caller × SessionPtr)
  deriving DecidableEq, Repr

/-- What a caller does. -/
inductive PoolAction where
  /-- one turn of the loop of `Acquire`: a receive on `WChan` -/
  | acquire (c : Caller)
  /-- a call of `Release` -/
  | release (c : Caller) (s : Option SessionPtr)
  deriving DecidableEq, Repr

/-- The list `held` without the first occurrence of `cp`. -/
def dropHeld (cp : Caller × SessionPtr) : List (Caller × SessionPtr) →
    List (Caller × SessionPtr)
  | [] => []
  | x :: xs => if x = cp then xs else x :: dropHeld cp xs

/-- One step of the pool. -/
def PoolState.step (st : PoolState) : PoolAction → PoolState
  | PoolAction.acquire c =>
    match brokerSend st.freeList with
    | (some s, rest) => { freeList := rest, held := st.held ++ [(c, s)] }
    | (none, rest) => { st with freeList := rest }
  | PoolAction.release c s =>
    { freeList := RedisConnectionPool.Release st.freeList s,
      held := match s with
        | some p => dropHeld (c, p) st.held
        | none => st.held }

/-- The steps of a list of actions, in order. -/
def PoolState.run (st : PoolState) (acts : List PoolAction) : PoolState :=
  acts.foldl PoolState.step st

/-- An action of a caller that keeps to the protocol: it releases only a
session it holds. -/
def PoolAction.owned (st : PoolState) : PoolAction → Bool
  | PoolAction.acquire _ => true
  | PoolAction.release c (some p) => decide ((c, p) ∈ st.held)
  | PoolAction.release _ none => false

/-- Every action of the list keeps to the protocol in the state it is done in. -/
def PoolState.ownedRun : PoolState → List PoolAction → Bool
  | _, [] => true
  | st, a :: acts => a.owned st && (st.step a).ownedRun acts

/-- The sessions held by callers. -/
def PoolState.heldSessions (st : PoolState) : List SessionPtr :=
  st.held.map Prod.snd

/-- The state in which the broker starts on the free list `freeList`. -/
def PoolState.start (freeList : List SessionPtr) : PoolState :=
  { freeList := freeList, held := [] }

/-! ## Properties of `RedisSession.SendCommand` -/

/-- The reply carries the end-of-stream error `io.EOF`. -/
def Reply.isEOF (r : Reply) : Bool :=
  decide (r.Err = some GoError.EOF)

/-- The position, counted from 1, of the first reply of `transport` that is not
end-of-stream, capped at 3. -/
def attemptCount (transport : Nat → Reply) : Nat :=
  if (transport 0).isEOF then
    if (transport 1).isEOF then 3 else 2
  else 1

/-- What `k` attempts of a command leave in the log: the command each time,
followed by close and reconnect when the reply to it was end-of-stream. -/
def attemptLog (commandName : GoString) (args : List Value) (transport : Nat → Reply) :
    Nat → List ConnEvent
  | 0 => []
  | k + 1 =>
    attemptLog commandName args transport k ++
      (ConnEvent.cmd commandName args ::
        if (transport k).isEOF then [ConnEvent.close, ConnEvent.connect] else [])

/-- The number of commands written in a log. -/
def cmdCount (log : List ConnEvent) : Nat :=
  log.countP (fun ev => match ev with
    | ConnEvent.cmd _ _ => true
    | _ => false)

/-- The number of reconnects in a log. -/
def connectCount (log : List ConnEvent) : Nat :=
  log.countP (fun ev => decide (ev = ConnEvent.connect))

/-- The number of end-of-stream replies among the first `k` of `transport`. -/
def eofCount (transport : Nat → Reply) : Nat → Nat
  | 0 => 0
  | k + 1 => eofCount transport k + (if (transport k).isEOF then 1 else 0)

/-- The number of `Close` calls in a log. -/
def closeCount (log : List ConnEvent) : Nat :=
  log.countP (fun ev => decide (ev = ConnEvent.close))

/-- A transport that ends the stream on the first two commands and then
answers with a status reply. -/
def transportEofTwice : Nat → Reply := fun n =>
  if n < 2 then { Type_ := ReplyType.ErrorReply, Err := some GoError.EOF, buf := [] }
  else { Type_ := ReplyType.StatusReply, Err := none, buf := ascii "OK" }

/-- A session on `transportEofTwice` with an empty log. -/
def sessionEofTwice : RedisSession :=
  { RedisAddr := ascii "127.0.0.1:6379", transport := transportEofTwice,
    dial := fun _ => none, log := [] }

/-- The reply `SendCommand` returns for the next logical command sent on `s`:
the first reply of the transport that is not end-of-stream, or the third. -/
def RedisSession.nextReply (s : RedisSession) : Reply :=
  s.transport (attemptCount s.transport - 1)

/-- The error reply of a store that does not know the hash. -/
def replyNoScript : Reply :=
  { Type_ := ReplyType.ErrorReply,
    Err := some (GoError.other (ascii "NOSCRIPT No matching script. Please use EVAL.")),
    buf := [] }

/-- An error reply of the store that has nothing to do with the script cache. -/
def replyWrongType : Reply :=
  { Type_ := ReplyType.ErrorReply,
    Err := some (GoError.other (ascii "WRONGTYPE Operation against a key holding the wrong kind of value")),
    buf := [] }

/-- A bulk reply without error. -/
def replyBulk : Reply :=
  { Type_ := ReplyType.BulkReply, Err := none, buf := ascii "[0,1700000001]" }

/-- A session with an empty log on the given transport. -/
def sessionOn (transport : Nat → Reply) : RedisSession :=
  { RedisAddr := ascii "127.0.0.1:6379", transport := transport, dial := fun _ => none,
    log := [] }

/-- A store that answers the first two commands with a `NOSCRIPT` error and the
third with a bulk reply. -/
def transportNoScriptTwice : Nat → Reply := fun n =>
  if n < 2 then replyNoScript else replyBulk

/-- A store that answers every command with a `NOSCRIPT` error. -/
def transportNoScriptAlways : Nat → Reply := fun _ => replyNoScript

/-- A store that answers the first command with a `NOSCRIPT` error and the
following ones with a bulk reply. -/
def transportNoScriptOnce : Nat → Reply := fun n =>
  if n < 1 then replyNoScript else replyBulk

/-- A store that answers with an error other than `NOSCRIPT`. -/
def transportWrongType : Nat → Reply := fun _ => replyWrongType

/-- A loaded script. -/
def scriptSignup : ScriptFile :=
  { LastModTime := 1700000000, PathFile := ascii "./script/Signup.lua",
    Buffer := ascii "return ARGV[1]",
    ScriptSHA1 := ascii "098e0f0d1448c0a81dafe820f66d460eb09263da" }

/-- The script directory `./script` with an empty map, as `New` makes it. -/
def scriptsEmpty : Script :=
  { Path := ascii "./script", ScriptBuf := fun _ => none }

/-- The script directory `./script` whose map holds `scriptSignup` under
`Signup.lua` and nothing else. -/
def scriptsCached : Script :=
  { Path := ascii "./script",
    ScriptBuf := fun k => if k = ascii "Signup.lua" then some scriptSignup else none }

/-- The file `./script/Signup.lua` as `scriptSignup` was loaded from it. -/
def fileSignup : File :=
  { name := ascii "./script/Signup.lua", Stat := Except.ok 1700000000,
    ReadAll := Except.ok (ascii "return ARGV[1]") }

/-- The error of `os.Open` on a missing file. -/
def errNoEnt : GoError :=
  GoError.other (ascii "open: no such file or directory")

/-- The error of `os.Open` when the process has no descriptor left. -/
def errTooManyFiles : GoError :=
  GoError.other (ascii "open ./script/Signup.lua: too many open files")

/-- The error of a read on a directory. -/
def errIsDir : GoError :=
  GoError.other (ascii "read ./script/Signup.lua: is a directory")

/-- A file system that holds `fileSignup` and nothing else, unchanged over time. -/
def fsSignup : FileSystem :=
  { disk := fun _ name =>
      if name = ascii "./script/Signup.lua" then Except.ok fileSignup else Except.error errNoEnt,
    log := [] }

/-- The file system `fsSignup`, except that the first `os.Open` fails for want
of a descriptor. -/
def fsOpenFailsOnce : FileSystem :=
  { disk := fun n name =>
      if n = 0 then Except.error errTooManyFiles
      else if name = ascii "./script/Signup.lua" then Except.ok fileSignup
      else Except.error errNoEnt,
    log := [] }

/-- A file system in which `./script/Signup.lua` has become a directory with a
later modification time: it can be opened and stat-ed, not read. -/
def fsSignupIsDir : FileSystem :=
  { disk := fun _ name =>
      if name = ascii "./script/Signup.lua" then
        Except.ok { name := ascii "./script/Signup.lua", Stat := Except.ok 1700000500,
                    ReadAll := Except.error errIsDir }
      else Except.error errNoEnt,
    log := [] }

/-- The error of a dial that is refused. -/
def errRefused : GoError :=
  GoError.other (ascii "dial tcp 127.0.0.1:6379: connection refused")

/-- A network on which every dial succeeds, except the one of the session of
index 2. -/
def netsThirdRefused : Nat → Network := fun i =>
  { transport := fun _ => replyBulk,
    dial := fun _ => if i = 2 then some errRefused else none }

/-- A network on which every dial succeeds. -/
def netsUp : Nat → Network := fun _ =>
  { transport := fun _ => replyBulk, dial := fun _ => none }

/-- The sessions of a pool of capacity `N` are, each exactly once, either in
the free list or held by a caller. -/
def PoolInv (N : Nat) (st : PoolState) : Prop :=
  (st.heldSessions ++ st.freeList).Perm (List.range N)

/-- The callers that hold the session `p`, one entry for each time it was
handed out and not released. -/
def PoolState.holders (st : PoolState) (p : SessionPtr) : List Caller :=
  (st.held.filter (fun cp => decide (cp.2 = p))).map Prod.fst

/-! # Theorems -/

set_option maxRecDepth 100000

/-! ## Test vectors of the hash -/

theorem sha1_empty :
    hexEncodeToString (sha1Sum []) = ascii "da39a3ee5e6b4b0d3255bfef95601890afd80709" := by
  decide

theorem sha1_abc :
    hexEncodeToString (sha1Sum (ascii "abc"))
      = ascii "a9993e364706816aba3e25717850c26c9cd0d89d" := by
  decide

theorem sha1_two_blocks :
    hexEncodeToString
        (sha1Sum (ascii "abcdbcdecdefdefgefghfghighijhijkijkljklmklmnlmnomnopnopq"))
      = ascii "84983e441c3bd26ebaae4aa1f95129e5e54670f1" := by
  decide

theorem scriptSignup_hash :
    scriptSignup.ScriptSHA1 = hexEncodeToString (sha1Sum scriptSignup.Buffer) := by
  decide

/-! ## `RedisSession.SendCommand` -/

theorem cmdCount_append (l m : List ConnEvent) : cmdCount (l ++ m) = cmdCount l + cmdCount m := by
  simp [cmdCount]

theorem connectCount_append (l m : List ConnEvent) :
    connectCount (l ++ m) = connectCount l + connectCount m := by
  simp [connectCount]

theorem closeCount_append (l m : List ConnEvent) :
    closeCount (l ++ m) = closeCount l + closeCount m := by
  simp [closeCount]

theorem cmdCount_attemptLog (commandName : GoString) (args : List Value)
    (transport : Nat → Reply) (k : Nat) :
    cmdCount (attemptLog commandName args transport k) = k := by
  induction k with
  | zero => simp [attemptLog, cmdCount]
  | succ k ih =>
    rw [attemptLog, cmdCount_append, ih]
    by_cases h : (transport k).isEOF = true <;> simp [cmdCount, h]

theorem connectCount_attemptLog (commandName : GoString) (args : List Value)
    (transport : Nat → Reply) (k : Nat) :
    connectCount (attemptLog commandName args transport k) = eofCount transport k := by
  induction k with
  | zero => simp [attemptLog, connectCount, eofCount]
  | succ k ih =>
    rw [attemptLog, connectCount_append, ih, eofCount]
    by_cases h : (transport k).isEOF = true <;> simp [connectCount, h]

theorem closeCount_attemptLog (commandName : GoString) (args : List Value)
    (transport : Nat → Reply) (k : Nat) :
    closeCount (attemptLog commandName args transport k) = eofCount transport k := by
  induction k with
  | zero => simp [attemptLog, closeCount, eofCount]
  | succ k ih =>
    rw [attemptLog, closeCount_append, ih, eofCount]
    by_cases h : (transport k).isEOF = true <;> simp [closeCount, h]

theorem SendCommand_spec (s : RedisSession) (commandName : GoString) (args : List Value) :
    (s.SendCommand commandName args).2
        = some (s.transport (attemptCount s.transport - 1)) ∧
    (s.SendCommand commandName args).1.log
        = s.log ++ ConnEvent.sendCommand commandName args ::
            attemptLog commandName args s.transport (attemptCount s.transport) ∧
    (s.SendCommand commandName args).1.transport
        = (fun n => s.transport (n + attemptCount s.transport)) ∧
    1 ≤ attemptCount s.transport ∧ attemptCount s.transport ≤ 3 ∧
    (∀ j, j + 1 < attemptCount s.transport → (s.transport j).isEOF = true) ∧
    (attemptCount s.transport < 3 →
      (s.transport (attemptCount s.transport - 1)).isEOF = false) := by
  unfold RedisSession.SendCommand attemptCount
  by_cases h0 : (s.transport 0).Err = some GoError.EOF
  · by_cases h1 : (s.transport 1).Err = some GoError.EOF
    · by_cases h2 : (s.transport 2).Err = some GoError.EOF
      · simp [RedisSession.SendCommandLoop, RedisSession.RedisConnCmd, RedisSession.Close,
          RedisSession.Connect, Reply.isEOF, attemptLog, h0, h1, h2]
        intro j hj
        have hj2 : j < 2 := by omega
        interval_cases j <;> simp [h0, h1]
      · simp [RedisSession.SendCommandLoop, RedisSession.RedisConnCmd, RedisSession.Close,
          RedisSession.Connect, Reply.isEOF, attemptLog, h0, h1, h2]
        intro j hj
        have hj2 : j < 2 := by omega
        interval_cases j <;> simp [h0, h1]
    · simp [RedisSession.SendCommandLoop, RedisSession.RedisConnCmd, RedisSession.Close,
          RedisSession.Connect, Reply.isEOF, attemptLog, h0, h1]
      intro j hj
      have hj0 : j = 0 := by omega
      simp [hj0, h0]
  · simp [RedisSession.SendCommandLoop, RedisSession.RedisConnCmd, RedisSession.Close,
          RedisSession.Connect, Reply.isEOF, attemptLog, h0]

/-- C6. `SendCommand` writes the command `k` times, where `k` is the position of
the first reply that is not end-of-stream, capped at 3; it returns the `k`-th
reply; every end-of-stream reply it saw is followed by exactly one close and one
reconnect, in that order. In particular: end-of-stream twice and then a reply
without error gives that reply after exactly two reconnects; end-of-stream three
times gives the third reply; an error other than end-of-stream on the first
attempt is returned after one attempt and no reconnect. -/
theorem SendCommand_retry (s : RedisSession) (commandName : GoString) (args : List Value) :
    (s.SendCommand commandName args).2 = some (s.transport (attemptCount s.transport - 1)) ∧
    (s.SendCommand commandName args).1.log
        = s.log ++ ConnEvent.sendCommand commandName args ::
            attemptLog commandName args s.transport (attemptCount s.transport) ∧
    cmdCount (attemptLog commandName args s.transport (attemptCount s.transport))
        = attemptCount s.transport ∧
    closeCount (attemptLog commandName args s.transport (attemptCount s.transport))
        = eofCount s.transport (attemptCount s.transport) ∧
    connectCount (attemptLog commandName args s.transport (attemptCount s.transport))
        = eofCount s.transport (attemptCount s.transport) ∧
    1 ≤ attemptCount s.transport ∧ attemptCount s.transport ≤ 3 ∧
    (∀ j, j + 1 < attemptCount s.transport → (s.transport j).isEOF = true) ∧
    (attemptCount s.transport < 3 →
      (s.transport (attemptCount s.transport - 1)).isEOF = false) ∧
    ((s.transport 0).isEOF = true → (s.transport 1).isEOF = true → (s.transport 2).Err = none →
      (s.SendCommand commandName args).2 = some (s.transport 2) ∧
      connectCount (s.SendCommand commandName args).1.log = connectCount s.log + 2 ∧
      (s.SendCommand commandName args).1.log = s.log ++
        [ConnEvent.sendCommand commandName args,
         ConnEvent.cmd commandName args, ConnEvent.close, ConnEvent.connect,
         ConnEvent.cmd commandName args, ConnEvent.close, ConnEvent.connect,
         ConnEvent.cmd commandName args]) ∧
    ((s.transport 0).isEOF = true → (s.transport 1).isEOF = true →
        (s.transport 2).isEOF = true →
      (s.SendCommand commandName args).2 = some (s.transport 2) ∧
      cmdCount (s.SendCommand commandName args).1.log = cmdCount s.log + 3) ∧
    (∀ e, (s.transport 0).Err = some e → e ≠ GoError.EOF →
      (s.SendCommand commandName args).2 = some (s.transport 0) ∧
      (s.SendCommand commandName args).1.log = s.log ++
        [ConnEvent.sendCommand commandName args, ConnEvent.cmd commandName args]) := by
  obtain ⟨hret, hlog, -, hk1, hk3, hpre, hlast⟩ := SendCommand_spec s commandName args
  refine ⟨hret, hlog, cmdCount_attemptLog _ _ _ _, closeCount_attemptLog _ _ _ _,
    connectCount_attemptLog _ _ _ _, hk1, hk3, hpre, hlast, ?_, ?_, ?_⟩
  · intro h0 h1 h2
    have hk : attemptCount s.transport = 3 := by simp [attemptCount, h0, h1]
    have h2f : (s.transport 2).isEOF = false := by simp [Reply.isEOF, h2]
    rw [hret, hlog, hk]
    simp [attemptLog, h0, h1, h2f, connectCount_append, connectCount]
  · intro h0 h1 h2
    have hk : attemptCount s.transport = 3 := by simp [attemptCount, h0, h1]
    have hcons : ∀ l : List ConnEvent, ConnEvent.sendCommand commandName args :: l
        = [ConnEvent.sendCommand commandName args] ++ l := fun _ => rfl
    rw [hret, hlog, hk, hcons, cmdCount_append, cmdCount_append, cmdCount_attemptLog]
    simp [cmdCount]
  · intro e he hne
    have h0 : (s.transport 0).isEOF = false := by
      simp [Reply.isEOF, he, hne]
    have hk : attemptCount s.transport = 1 := by simp [attemptCount, h0]
    rw [hret, hlog, hk]
    simp [attemptLog, h0]

/-- C6, at a session whose transport ends the stream twice and then answers. -/
theorem SendCommand_retry_witness :
    (sessionEofTwice.SendCommand (ascii "evalsha") []).2 = some (transportEofTwice 2) ∧
    connectCount (sessionEofTwice.SendCommand (ascii "evalsha") []).1.log = 2 :=
  have h := (SendCommand_retry sessionEofTwice (ascii "evalsha") []).2.2.2.2.2.2.2.2.2.1
    (by decide) (by decide) (by decide)
  ⟨h.1, h.2.1⟩

/-! ## `ScriptFile.Cmd` -/

theorem sentCommands_append (l m : List ConnEvent) :
    sentCommands (l ++ m) = sentCommands l ++ sentCommands m := by
  simp [sentCommands]

theorem wireCommands_append (l m : List ConnEvent) :
    wireCommands (l ++ m) = wireCommands l ++ wireCommands m := by
  simp [wireCommands]

theorem sentCommands_attemptLog (commandName : GoString) (args : List Value)
    (transport : Nat → Reply) (k : Nat) :
    sentCommands (attemptLog commandName args transport k) = [] := by
  induction k with
  | zero => simp [attemptLog, sentCommands]
  | succ k ih =>
    rw [attemptLog, sentCommands_append, ih]
    by_cases h : (transport k).isEOF = true <;> simp [sentCommands, h]

theorem wireCommands_attemptLog (commandName : GoString) (args : List Value)
    (transport : Nat → Reply) (k : Nat) :
    wireCommands (attemptLog commandName args transport k)
      = List.replicate k (commandName, args) := by
  induction k with
  | zero => simp [attemptLog, wireCommands]
  | succ k ih =>
    rw [attemptLog, wireCommands_append, ih, List.replicate_succ']
    by_cases h : (transport k).isEOF = true <;> simp [wireCommands, h]

theorem SendCommand_eq (s : RedisSession) (commandName : GoString) (args : List Value) :
    s.SendCommand commandName args = ((s.SendCommand commandName args).1, some s.nextReply) := by
  have h := (SendCommand_spec s commandName args).1
  exact Prod.ext rfl h

theorem SendCommand_sent (s : RedisSession) (commandName : GoString) (args : List Value) :
    sentCommands (s.SendCommand commandName args).1.log
      = sentCommands s.log ++ [(commandName, args)] := by
  have h := (SendCommand_spec s commandName args).2.1
  have hcons : ∀ l : List ConnEvent, ConnEvent.sendCommand commandName args :: l
      = [ConnEvent.sendCommand commandName args] ++ l := fun _ => rfl
  rw [h, hcons, sentCommands_append, sentCommands_append, sentCommands_attemptLog]
  simp [sentCommands]

theorem SendCommand_wire (s : RedisSession) (commandName : GoString) (args : List Value) :
    wireCommands (s.SendCommand commandName args).1.log
      = wireCommands s.log ++ List.replicate (attemptCount s.transport) (commandName, args) := by
  have h := (SendCommand_spec s commandName args).2.1
  have hcons : ∀ l : List ConnEvent, ConnEvent.sendCommand commandName args :: l
      = [ConnEvent.sendCommand commandName args] ++ l := fun _ => rfl
  rw [h, hcons, wireCommands_append, wireCommands_append, wireCommands_attemptLog]
  simp [wireCommands]

theorem Cmd_succ (F : ScriptFile) (fuel : Nat) (cmd : GoString) (s : RedisSession)
    (v : List Value) :
    F.Cmd (fuel + 1) cmd s v =
      if s.nextReply.Type_ = ReplyType.ErrorReply then
        match s.nextReply.Err with
        | none => ((s.SendCommand cmd v).1, Outcome.panic)
        | some err =>
          if Contains err.Error (ascii "NOSCRIPT") then
            match v with
            | [] => ((s.SendCommand cmd v).1, Outcome.panic)
            | _ :: rest =>
              F.Cmd fuel (ascii "eval") (s.SendCommand cmd v).1 (Value.str F.Buffer :: rest)
          else
            ((s.SendCommand cmd v).1, Outcome.ret (none, some err))
      else
        ((s.SendCommand cmd v).1, Outcome.ret (some s.nextReply, none)) := by
  rw [ScriptFile.Cmd, SendCommand_eq]

theorem Cmd_log_extends (F : ScriptFile) (fuel : Nat) :
    ∀ (cmd : GoString) (s : RedisSession) (v : List Value),
      ∃ rest, (F.Cmd fuel cmd s v).1.log = s.log ++ rest := by
  induction fuel with
  | zero => intro cmd s v; exact ⟨[], by simp [ScriptFile.Cmd]⟩
  | succ fuel ih =>
    intro cmd s v
    have hs : ∃ rest, (s.SendCommand cmd v).1.log = s.log ++ rest :=
      ⟨_, (SendCommand_spec s cmd v).2.1⟩
    rw [Cmd_succ]
    split_ifs with h1
    · cases hE : s.nextReply.Err with
      | none => exact hs
      | some err =>
        simp only []
        split_ifs with h2
        · cases v with
          | nil => exact hs
          | cons a rest =>
            obtain ⟨r1, hr1⟩ := hs
            obtain ⟨r2, hr2⟩ := ih (ascii "eval") (s.SendCommand cmd (a :: rest)).1
              (Value.str F.Buffer :: rest)
            exact ⟨r1 ++ r2, by simp only []; rw [hr2, hr1, List.append_assoc]⟩
        · exact hs
    · exact hs

theorem Cmd_noScript_step (F : ScriptFile) (fuel : Nat) (cmd : GoString) (s : RedisSession)
    (a : Value) (rest : List Value) (e : GoError)
    (hT : s.nextReply.Type_ = ReplyType.ErrorReply) (hE : s.nextReply.Err = some e)
    (hN : Contains e.Error (ascii "NOSCRIPT") = true) :
    F.Cmd (fuel + 1) cmd s (a :: rest)
      = F.Cmd fuel (ascii "eval") (s.SendCommand cmd (a :: rest)).1
          (Value.str F.Buffer :: rest) := by
  rw [Cmd_succ]
  simp [hT, hE, hN]

theorem Cmd_other_error (F : ScriptFile) (fuel : Nat) (cmd : GoString) (s : RedisSession)
    (v : List Value) (e : GoError)
    (hT : s.nextReply.Type_ = ReplyType.ErrorReply) (hE : s.nextReply.Err = some e)
    (hN : Contains e.Error (ascii "NOSCRIPT") = false) :
    F.Cmd (fuel + 1) cmd s v = ((s.SendCommand cmd v).1, Outcome.ret (none, some e)) := by
  rw [Cmd_succ]
  simp [hT, hE, hN]

theorem Cmd_no_error (F : ScriptFile) (fuel : Nat) (cmd : GoString) (s : RedisSession)
    (v : List Value) (hT : s.nextReply.Type_ ≠ ReplyType.ErrorReply) :
    F.Cmd (fuel + 1) cmd s v
      = ((s.SendCommand cmd v).1, Outcome.ret (some s.nextReply, none)) := by
  rw [Cmd_succ]
  simp [hT]

theorem Cmd_sent_first (F : ScriptFile) (fuel : Nat) (cmd : GoString) (s : RedisSession)
    (v : List Value) :
    ∃ rest, sentCommands (F.Cmd (fuel + 1) cmd s v).1.log
      = sentCommands s.log ++ (cmd, v) :: rest := by
  have hs := SendCommand_sent s cmd v
  rw [Cmd_succ]
  split_ifs with h1
  · cases hE : s.nextReply.Err with
    | none => exact ⟨[], by simp [hs]⟩
    | some err =>
      simp only []
      split_ifs with h2
      · cases v with
        | nil => exact ⟨[], by simp [hs]⟩
        | cons a rest =>
          obtain ⟨r2, hr2⟩ := Cmd_log_extends F fuel (ascii "eval")
            (s.SendCommand cmd (a :: rest)).1 (Value.str F.Buffer :: rest)
          refine ⟨sentCommands r2, ?_⟩
          simp only []
          rw [hr2, sentCommands_append, hs]
          simp
      · exact ⟨[], by simp [hs]⟩
  · exact ⟨[], by simp [hs]⟩

theorem Contains_EOF_noScript : Contains GoError.EOF.Error (ascii "NOSCRIPT") = false := by
  decide

theorem nextReply_of_not_isEOF (s : RedisSession) (h : (s.transport 0).isEOF = false) :
    s.nextReply = s.transport 0 ∧ attemptCount s.transport = 1 := by
  simp [RedisSession.nextReply, attemptCount, h]

theorem Run_of_lookup (S : Script) (fs : FileSystem) (fuel : Nat) (s : RedisSession)
    (name : GoString) (args : List Value) (S1 : Script) (fs1 : FileSystem) (F : ScriptFile)
    (hF : S.RunLookup fs name = (S1, fs1, some F, none)) :
    S.Run fs fuel s name args =
      { S := S1, fs := fs1,
        redisSession :=
          (F.Cmd fuel (ascii "evalsha") s (Value.str F.ScriptSHA1 :: args)).1,
        out := (F.Cmd fuel (ascii "evalsha") s (Value.str F.ScriptSHA1 :: args)).2 } := by
  simp [Script.Run, hF, Script.RunSend]

/-- C3. When `Run` gets as far as sending `evalsha` for the entry `F` and the
reply to it is an error reply with error `e`, the `eval` fallback is sent next if
and only if the message of `e` contains `NOSCRIPT`; otherwise `Run` returns
`(nil, e)`, `e` being the error of the reply, and `evalsha` is the only command
it sent (the only one on the wire too when the reply came at the first attempt). -/
theorem Run_error_reply (S : Script) (fs : FileSystem) (fuel : Nat) (s : RedisSession)
    (name : GoString) (args : List Value) (S1 : Script) (fs1 : FileSystem) (F : ScriptFile)
    (e : GoError)
    (hF : S.RunLookup fs name = (S1, fs1, some F, none))
    (hT : s.nextReply.Type_ = ReplyType.ErrorReply) (hE : s.nextReply.Err = some e) :
    ((∃ rest, sentCommands (S.Run fs (fuel + 2) s name args).redisSession.log
        = sentCommands s.log ++
            (ascii "evalsha", Value.str F.ScriptSHA1 :: args) ::
            (ascii "eval", Value.str F.Buffer :: args) :: rest)
      ↔ Contains e.Error (ascii "NOSCRIPT") = true) ∧
    (Contains e.Error (ascii "NOSCRIPT") = false →
      (S.Run fs (fuel + 2) s name args).out = Outcome.ret (none, some e) ∧
      sentCommands (S.Run fs (fuel + 2) s name args).redisSession.log
        = sentCommands s.log ++ [(ascii "evalsha", Value.str F.ScriptSHA1 :: args)] ∧
      ((s.transport 0).isEOF = false →
        wireCommands (S.Run fs (fuel + 2) s name args).redisSession.log
          = wireCommands s.log ++ [(ascii "evalsha", Value.str F.ScriptSHA1 :: args)])) := by
  rw [Run_of_lookup S fs (fuel + 2) s name args S1 fs1 F hF]
  simp only []
  by_cases hN : Contains e.Error (ascii "NOSCRIPT") = true
  · refine ⟨⟨fun _ => hN, fun _ => ?_⟩, fun h => by simp [hN] at h⟩
    rw [Cmd_noScript_step F (fuel + 1) _ s _ args e hT hE hN]
    obtain ⟨rest, hrest⟩ := Cmd_sent_first F fuel (ascii "eval")
      (s.SendCommand (ascii "evalsha") (Value.str F.ScriptSHA1 :: args)).1
      (Value.str F.Buffer :: args)
    exact ⟨rest, by rw [hrest, SendCommand_sent]; simp⟩
  · have hN2 : Contains e.Error (ascii "NOSCRIPT") = false := by simpa using hN
    rw [Cmd_other_error F (fuel + 1) _ s _ e hT hE hN2]
    refine ⟨⟨fun h => ?_, fun h => absurd h hN⟩, fun _ => ⟨rfl, ?_, ?_⟩⟩
    · obtain ⟨rest, hrest⟩ := h
      simp only [] at hrest
      rw [SendCommand_sent] at hrest
      simp at hrest
    · simp only []
      rw [SendCommand_sent]
    · intro h0
      simp only []
      rw [SendCommand_wire, (nextReply_of_not_isEOF s h0).2]
      simp

/-! ## `Script.Load`, `ScriptFile.IsModfiy`, `Script.Run` -/

theorem Load_cases (S : Script) (fs : FileSystem) (name : GoString) :
    (∃ e, (S.Load fs name).2.2 = (none, some e) ∧ (S.Load fs name).1 = S) ∨
    (∃ F, (S.Load fs name).2.2 = (some F, none) ∧
      (S.Load fs name).1 = { S with ScriptBuf := mapSet S.ScriptBuf name F } ∧
      F.ScriptSHA1 = hexEncodeToString (sha1Sum F.Buffer) ∧
      F.PathFile = S.Path ++ ascii "/" ++ name) := by
  unfold Script.Load
  simp only [FileSystem.Open, FileSystem.Stat, FileSystem.ReadAll]
  cases h0 : fs.disk 0 (S.Path ++ ascii "/" ++ name) with
  | error e => exact Or.inl ⟨e, rfl, rfl⟩
  | ok f =>
    cases h1 : f.Stat with
    | error e => simp [h1]
    | ok t =>
      cases h2 : f.ReadAll with
      | error e => simp [h1, h2]
      | ok b => simp [h1, h2]

theorem Load_log_extends (S : Script) (fs : FileSystem) (name : GoString) :
    ∃ rest, (S.Load fs name).2.1.log = fs.log ++ rest := by
  unfold Script.Load
  simp only [FileSystem.Open, FileSystem.Stat, FileSystem.ReadAll]
  cases h0 : fs.disk 0 (S.Path ++ ascii "/" ++ name) with
  | error e => exact ⟨_, rfl⟩
  | ok f =>
    cases h1 : f.Stat with
    | error e => simp [h1]
    | ok t =>
      cases h2 : f.ReadAll with
      | error e => simp [h1, h2]
      | ok b => simp [h1, h2]

theorem IsModfiy_cases (F : ScriptFile) (fs : FileSystem) :
    (∃ e, fs.disk 0 F.PathFile = Except.error e ∧
      F.IsModfiy fs = ({ disk := fun n => fs.disk (n + 1),
                         log := fs.log ++ [FsEvent.open F.PathFile] }, false, some e)) ∨
    (∃ f e, fs.disk 0 F.PathFile = Except.ok f ∧ f.Stat = Except.error e ∧
      F.IsModfiy fs = ({ disk := fun n => fs.disk (n + 1),
                         log := fs.log ++ [FsEvent.open F.PathFile, FsEvent.stat f.name] },
                       false, some e)) ∨
    (∃ f t, fs.disk 0 F.PathFile = Except.ok f ∧ f.Stat = Except.ok t ∧
      F.IsModfiy fs = ({ disk := fun n => fs.disk (n + 1),
                         log := fs.log ++ [FsEvent.open F.PathFile, FsEvent.stat f.name] },
                       !(Time.Equal t F.LastModTime), none)) := by
  unfold ScriptFile.IsModfiy
  simp only [FileSystem.Open, FileSystem.Stat]
  cases h0 : fs.disk 0 F.PathFile with
  | error e => exact Or.inl ⟨e, rfl, rfl⟩
  | ok f =>
    cases h1 : f.Stat with
    | error e => simp [h1]
    | ok t => simp [h1]

theorem diskLoads_append (l m : List FsEvent) : diskLoads (l ++ m) = diskLoads l + diskLoads m := by
  simp [diskLoads]

theorem diskOpens_append (l m : List FsEvent) : diskOpens (l ++ m) = diskOpens l + diskOpens m := by
  simp [diskOpens]

theorem IsModfiy_log (F : ScriptFile) (fs : FileSystem) :
    diskLoads (F.IsModfiy fs).1.log = diskLoads fs.log ∧
    diskOpens (F.IsModfiy fs).1.log = diskOpens fs.log + 1 := by
  rcases IsModfiy_cases F fs with ⟨e, -, h⟩ | ⟨f, e, -, -, h⟩ | ⟨f, t, -, -, h⟩ <;>
    rw [h] <;> simp [diskLoads, diskOpens]

theorem RunLookup_check_error (S : Script) (fs : FileSystem) (name : GoString) (F : ScriptFile)
    (e : GoError) (hF : S.ScriptBuf name = some F) (hE : (F.IsModfiy fs).2.2 = some e) :
    S.RunLookup fs name = (S, (F.IsModfiy fs).1, none, some e) := by
  unfold Script.RunLookup
  rw [hF]
  rcases h : F.IsModfiy fs with ⟨fs1, b, err⟩
  rw [h] at hE
  simp only [] at hE
  subst hE
  simp [h]

theorem RunLookup_stale (S : Script) (fs : FileSystem) (name : GoString) (F : ScriptFile)
    (hF : S.ScriptBuf name = some F) (hE : (F.IsModfiy fs).2 = (true, none)) :
    S.RunLookup fs name = S.Load (F.IsModfiy fs).1 name := by
  unfold Script.RunLookup
  rw [hF]
  rcases h : F.IsModfiy fs with ⟨fs1, b, err⟩
  rw [h] at hE
  simp only [Prod.mk.injEq] at hE
  obtain ⟨rfl, rfl⟩ := hE
  simp [h]

theorem RunLookup_fresh (S : Script) (fs : FileSystem) (name : GoString) (F : ScriptFile)
    (hF : S.ScriptBuf name = some F) (hE : (F.IsModfiy fs).2 = (false, none)) :
    S.RunLookup fs name = (S, (F.IsModfiy fs).1, some F, none) := by
  unfold Script.RunLookup
  rw [hF]
  rcases h : F.IsModfiy fs with ⟨fs1, b, err⟩
  rw [h] at hE
  simp only [Prod.mk.injEq] at hE
  obtain ⟨rfl, rfl⟩ := hE
  simp [h]

theorem Run_of_lookup_error (S : Script) (fs : FileSystem) (fuel : Nat) (s : RedisSession)
    (name : GoString) (args : List Value) (S1 : Script) (fs1 : FileSystem)
    (F : Option ScriptFile) (e : GoError)
    (h : S.RunLookup fs name = (S1, fs1, F, some e)) :
    S.Run fs fuel s name args =
      { S := S1, fs := fs1, redisSession := s, out := Outcome.ret (none, some e) } := by
  simp [Script.Run, h]

theorem Load_error_unchanged (S : Script) (fs : FileSystem) (name : GoString) (e : GoError)
    (h : (S.Load fs name).2.2.2 = some e) : (S.Load fs name).1 = S := by
  rcases Load_cases S fs name with ⟨e1, -, h2⟩ | ⟨F, h1, -⟩
  · exact h2
  · rw [h1] at h
    simp at h

theorem RunLookup_error_unchanged (S : Script) (fs : FileSystem) (name : GoString)
    (e : GoError) (h : (S.RunLookup fs name).2.2.2 = some e) : (S.RunLookup fs name).1 = S := by
  unfold Script.RunLookup at h ⊢
  cases hS : S.ScriptBuf name with
  | none =>
    rw [hS] at h
    exact Load_error_unchanged S fs name e h
  | some F =>
    rw [hS] at h
    simp only [] at h ⊢
    rcases hI : F.IsModfiy fs with ⟨fs1, b, err⟩
    rw [hI] at h
    cases err with
    | some e1 => simp
    | none =>
      cases b with
      | true => exact Load_error_unchanged S fs1 name e h
      | false => simp

/-- C5. A `Load` that returns an error leaves the map `ScriptBuf` as it was; and
when the lookup of `Run` (the `Load` or the staleness check) gives an error,
`Run` returns that error with a nil reply, the map is as it was and nothing was
sent on the session. -/
theorem error_keeps_cache (S : Script) (fs : FileSystem) (fuel : Nat) (s : RedisSession)
    (name : GoString) (args : List Value) :
    (∀ e, (S.Load fs name).2.2.2 = some e →
      (S.Load fs name).2.2.1 = none ∧ (S.Load fs name).1.ScriptBuf = S.ScriptBuf) ∧
    (∀ e, (S.RunLookup fs name).2.2.2 = some e →
      (S.Run fs fuel s name args).out = Outcome.ret (none, some e) ∧
      (S.Run fs fuel s name args).S.ScriptBuf = S.ScriptBuf ∧
      (S.Run fs fuel s name args).redisSession.log = s.log ∧
      (S.Run fs fuel s name args).redisSession.transport = s.transport) := by
  constructor
  · intro e h
    refine ⟨?_, by rw [Load_error_unchanged S fs name e h]⟩
    rcases Load_cases S fs name with ⟨e1, h1, -⟩ | ⟨F, h1, -⟩
    · rw [h1]
    · rw [h1] at h
      simp at h
  · intro e h
    have hS := RunLookup_error_unchanged S fs name e h
    have hR : S.RunLookup fs name
        = ((S.RunLookup fs name).1, (S.RunLookup fs name).2.1, (S.RunLookup fs name).2.2.1,
            some e) := by
      rw [← h]
    rw [Run_of_lookup_error S fs fuel s name args _ _ _ e hR, hS]
    exact ⟨rfl, rfl, rfl, rfl⟩

/-- C5, on a directory that has no file of the name asked for. -/
theorem error_keeps_cache_witness :
    (scriptsCached.Run fsSignup 2 (sessionOn transportNoScriptOnce) (ascii "Login.lua")
        [Value.int 0]).out = Outcome.ret (none, some errNoEnt) ∧
    (scriptsCached.Run fsSignup 2 (sessionOn transportNoScriptOnce) (ascii "Login.lua")
        [Value.int 0]).S.ScriptBuf = scriptsCached.ScriptBuf ∧
    (scriptsCached.Run fsSignup 2 (sessionOn transportNoScriptOnce) (ascii "Login.lua")
        [Value.int 0]).redisSession.log = [] :=
  have h := (error_keeps_cache scriptsCached fsSignup 2 (sessionOn transportNoScriptOnce)
    (ascii "Login.lua") [Value.int 0]).2 errNoEnt (by decide)
  ⟨h.1, h.2.1, h.2.2.1⟩

theorem Run_S (S : Script) (fs : FileSystem) (fuel : Nat) (s : RedisSession)
    (name : GoString) (args : List Value) :
    (S.Run fs fuel s name args).S = (S.RunLookup fs name).1 ∧
    (S.Run fs fuel s name args).fs = (S.RunLookup fs name).2.1 := by
  unfold Script.Run
  rcases hL : S.RunLookup fs name with ⟨S1, fs1, F, err⟩
  cases err with
  | some e => cases F <;> exact ⟨rfl, rfl⟩
  | none =>
    cases F with
    | none => exact ⟨rfl, rfl⟩
    | some F => exact ⟨rfl, rfl⟩

theorem Load_opens (S : Script) (fs : FileSystem) (name : GoString) :
    diskOpens (S.Load fs name).2.1.log = diskOpens fs.log + 1 := by
  unfold Script.Load
  simp only [FileSystem.Open, FileSystem.Stat, FileSystem.ReadAll]
  cases h0 : fs.disk 0 (S.Path ++ ascii "/" ++ name) with
  | error e => simp [diskOpens]
  | ok f =>
    cases h1 : f.Stat with
    | error e => simp [h1, diskOpens]
    | ok t =>
      cases h2 : f.ReadAll with
      | error e => simp [h1, h2, diskOpens]
      | ok b => simp [h1, h2, diskOpens]

/-- C4, as amended. When the map has an entry for the name and the staleness
check returns an error, `Run` returns that error with a nil reply at once: the
file system has seen the calls of the check and no others (no `Load`), the map
is as it was and nothing was sent on the session. When the check succeeds and
reports the entry stale, the lookup of `Run` is a fresh `Load` (a second
`os.Open`). When the check succeeds and reports the entry fresh, the entry is
used as it is: the file system has seen the calls of the check and no others
and the map is as it was. So a `Load` is performed if and only if the check
succeeds and reports the entry stale. -/
theorem Run_check_error (S : Script) (fs : FileSystem) (fuel : Nat) (s : RedisSession)
    (name : GoString) (args : List Value) (F : ScriptFile)
    (hF : S.ScriptBuf name = some F) :
    (∀ e, (F.IsModfiy fs).2.2 = some e →
      (S.Run fs fuel s name args).out = Outcome.ret (none, some e) ∧
      (S.Run fs fuel s name args).fs.log = (F.IsModfiy fs).1.log ∧
      diskOpens (S.Run fs fuel s name args).fs.log = diskOpens fs.log + 1 ∧
      diskLoads (S.Run fs fuel s name args).fs.log = diskLoads fs.log ∧
      (S.Run fs fuel s name args).S.ScriptBuf = S.ScriptBuf ∧
      (S.Run fs fuel s name args).redisSession.log = s.log) ∧
    ((F.IsModfiy fs).2 = (true, none) →
      S.RunLookup fs name = S.Load (F.IsModfiy fs).1 name ∧
      diskOpens (S.Run fs fuel s name args).fs.log = diskOpens fs.log + 2) ∧
    ((F.IsModfiy fs).2 = (false, none) →
      S.RunLookup fs name = (S, (F.IsModfiy fs).1, some F, none) ∧
      (S.Run fs fuel s name args).fs.log = (F.IsModfiy fs).1.log ∧
      diskOpens (S.Run fs fuel s name args).fs.log = diskOpens fs.log + 1 ∧
      diskLoads (S.Run fs fuel s name args).fs.log = diskLoads fs.log ∧
      (S.Run fs fuel s name args).S.ScriptBuf = S.ScriptBuf) ∧
    (diskOpens (S.Run fs fuel s name args).fs.log = diskOpens fs.log + 2 ↔
      (F.IsModfiy fs).2 = (true, none)) := by
  have hfs := (Run_S S fs fuel s name args).2
  have hSS := (Run_S S fs fuel s name args).1
  have hErr : ∀ e, (F.IsModfiy fs).2.2 = some e →
      diskOpens (S.Run fs fuel s name args).fs.log = diskOpens fs.log + 1 := by
    intro e hE
    rw [hfs, RunLookup_check_error S fs name F e hF hE]
    exact (IsModfiy_log F fs).2
  have hStale : (F.IsModfiy fs).2 = (true, none) →
      diskOpens (S.Run fs fuel s name args).fs.log = diskOpens fs.log + 2 := by
    intro hE
    rw [hfs, RunLookup_stale S fs name F hF hE, Load_opens, (IsModfiy_log F fs).2]
  have hFresh : (F.IsModfiy fs).2 = (false, none) →
      diskOpens (S.Run fs fuel s name args).fs.log = diskOpens fs.log + 1 := by
    intro hE
    rw [hfs, RunLookup_fresh S fs name F hF hE]
    exact (IsModfiy_log F fs).2
  refine ⟨fun e hE => ?_, fun hE => ⟨RunLookup_stale S fs name F hF hE, hStale hE⟩,
    fun hE => ?_, ⟨fun h => ?_, hStale⟩⟩
  · rw [Run_of_lookup_error S fs fuel s name args _ _ _ e
      (RunLookup_check_error S fs name F e hF hE)]
    exact ⟨rfl, rfl, (IsModfiy_log F fs).2, (IsModfiy_log F fs).1, rfl, rfl⟩
  · have hL := RunLookup_fresh S fs name F hF hE
    refine ⟨hL, ?_, hFresh hE, ?_, ?_⟩
    · rw [hfs, hL]
    · rw [hfs, hL]
      exact (IsModfiy_log F fs).1
    · rw [hSS, hL]
  · rcases hI : (F.IsModfiy fs).2 with ⟨b, err⟩
    cases err with
    | some e =>
      have := hErr e (by rw [hI])
      omega
    | none =>
      cases b with
      | true => rfl
      | false =>
        have := hFresh hI
        omega

/-- C4 as amended, when the first `os.Open` fails. -/
theorem Run_check_error_witness :
    (scriptsCached.Run fsOpenFailsOnce 2 (sessionOn transportNoScriptOnce)
        (ascii "Signup.lua") [Value.int 0]).out = Outcome.ret (none, some errTooManyFiles) ∧
    diskLoads (scriptsCached.Run fsOpenFailsOnce 2 (sessionOn transportNoScriptOnce)
        (ascii "Signup.lua") [Value.int 0]).fs.log = 0 :=
  have h := (Run_check_error scriptsCached fsOpenFailsOnce 2
    (sessionOn transportNoScriptOnce) (ascii "Signup.lua") [Value.int 0] scriptSignup
    (by decide)).1 errTooManyFiles (by decide)
  ⟨h.1, h.2.2.2.1⟩

/-- C4 fails as stated. The map holds an entry for `Signup.lua`, the first
`os.Open` (that of the staleness check) fails and every later one would
succeed: `Run` returns the error of the check, having called `os.Open` once and
read nothing, where the fresh `Load` which the stale case performs would have
opened the file a second time, read it and returned no error. -/
theorem Run_check_error_counterexample :
    scriptsCached.ScriptBuf (ascii "Signup.lua") = some scriptSignup ∧
    (scriptSignup.IsModfiy fsOpenFailsOnce).2 = (false, some errTooManyFiles) ∧
    (scriptsCached.Run fsOpenFailsOnce 2 (sessionOn transportNoScriptOnce)
        (ascii "Signup.lua") [Value.int 0]).out = Outcome.ret (none, some errTooManyFiles) ∧
    (scriptsCached.Run fsOpenFailsOnce 2 (sessionOn transportNoScriptOnce)
        (ascii "Signup.lua") [Value.int 0]).fs.log
      = [FsEvent.open (ascii "./script/Signup.lua")] ∧
    (scriptsCached.Run fsOpenFailsOnce 2 (sessionOn transportNoScriptOnce)
        (ascii "Signup.lua") [Value.int 0]).redisSession.log = [] ∧
    (scriptsCached.Load (scriptSignup.IsModfiy fsOpenFailsOnce).1 (ascii "Signup.lua")).2.2
      = (some scriptSignup, none) ∧
    (scriptsCached.Load (scriptSignup.IsModfiy fsOpenFailsOnce).1 (ascii "Signup.lua")).2.1.log
      = [FsEvent.open (ascii "./script/Signup.lua"),
         FsEvent.open (ascii "./script/Signup.lua"),
         FsEvent.stat (ascii "./script/Signup.lua"),
         FsEvent.readAll (ascii "./script/Signup.lua")] := by
  decide

theorem RunLookup_hashed (S : Script) (fs : FileSystem) (name : GoString) (S1 : Script)
    (fs1 : FileSystem) (F : ScriptFile) (hH : S.hashed)
    (hF : S.RunLookup fs name = (S1, fs1, some F, none)) :
    F.ScriptSHA1 = hexEncodeToString (sha1Sum F.Buffer) := by
  have hLoad : ∀ fs0 : FileSystem, S.Load fs0 name = (S1, fs1, some F, none) →
      F.ScriptSHA1 = hexEncodeToString (sha1Sum F.Buffer) := by
    intro fs0 h
    rcases Load_cases S fs0 name with ⟨e1, h1, -⟩ | ⟨F1, h1, -, h3, -⟩
    · rw [h] at h1
      simp at h1
    · rw [h] at h1
      simp only [Prod.mk.injEq, Option.some.injEq, and_true] at h1
      rw [h1]
      exact h3
  unfold Script.RunLookup at hF
  cases hS : S.ScriptBuf name with
  | none =>
    rw [hS] at hF
    exact hLoad fs hF
  | some F0 =>
    rw [hS] at hF
    simp only [] at hF
    rcases hI : F0.IsModfiy fs with ⟨fs2, b, err⟩
    rw [hI] at hF
    cases err with
    | some e1 => simp at hF
    | none =>
      cases b with
      | true => exact hLoad fs2 hF
      | false =>
        simp only [Prod.mk.injEq, Option.some.injEq, and_true] at hF
        rw [← hF.2.2]
        exact hH name F0 hS

theorem New_hashed (Path : GoString) (S : Script) (h : Script.New Path = Outcome.ret S) :
    S.hashed := by
  unfold Script.New at h
  cases hp : Path.getLast? with
  | none => rw [hp] at h; simp at h
  | some c =>
    rw [hp] at h
    simp only [] at h
    intro name F hF
    split_ifs at h with hc <;>
      · simp only [Outcome.ret.injEq] at h
        rw [← h] at hF
        simp at hF

theorem Load_hashed (S : Script) (fs : FileSystem) (name : GoString) (hH : S.hashed) :
    (S.Load fs name).1.hashed := by
  rcases Load_cases S fs name with ⟨e1, -, h2⟩ | ⟨F1, -, h2, h3, -⟩
  · rw [h2]; exact hH
  · rw [h2]
    intro k F hF
    simp only [mapSet] at hF
    split_ifs at hF with hk
    · simp only [Option.some.injEq] at hF
      rw [← hF]; exact h3
    · exact hH k F hF

theorem RunLookup_keeps_hashed (S : Script) (fs : FileSystem) (name : GoString)
    (hH : S.hashed) : (S.RunLookup fs name).1.hashed := by
  unfold Script.RunLookup
  cases hS : S.ScriptBuf name with
  | none => exact Load_hashed S fs name hH
  | some F0 =>
    simp only []
    rcases hI : F0.IsModfiy fs with ⟨fs2, b, err⟩
    cases err with
    | some e1 => cases b <;> exact hH
    | none =>
      cases b with
      | true => exact Load_hashed S fs2 name hH
      | false => exact hH

theorem Run_keeps_hashed (S : Script) (fs : FileSystem) (fuel : Nat) (s : RedisSession)
    (name : GoString) (args : List Value) (hH : S.hashed) :
    (S.Run fs fuel s name args).S.hashed := by
  rw [(Run_S S fs fuel s name args).1]
  exact RunLookup_keeps_hashed S fs name hH

/-- C2. When the lookup of `Run` gives the entry `F` (content `F.Buffer`), the
store answers the first command with an error whose message contains
`NOSCRIPT` and the second with a reply `r` that is no error, `Run` returns
`(r, nil)`, and the store has seen exactly `evalsha` with the lowercase
hexadecimal SHA-1 of the content followed by the caller's arguments, and then
`eval` with the content followed by the same arguments. -/
theorem Run_fallback (S : Script) (fs : FileSystem) (fuel : Nat) (s : RedisSession)
    (name : GoString) (args : List Value) (S1 : Script) (fs1 : FileSystem) (F : ScriptFile)
    (e : GoError) (r : Reply)
    (hH : S.hashed)
    (hF : S.RunLookup fs name = (S1, fs1, some F, none))
    (h0T : (s.transport 0).Type_ = ReplyType.ErrorReply)
    (h0E : (s.transport 0).Err = some e)
    (hN : Contains e.Error (ascii "NOSCRIPT") = true)
    (h1 : s.transport 1 = r)
    (hrT : r.Type_ ≠ ReplyType.ErrorReply) (hrE : r.Err = none) :
    (S.Run fs (fuel + 2) s name args).out = Outcome.ret (some r, none) ∧
    wireCommands (S.Run fs (fuel + 2) s name args).redisSession.log
      = wireCommands s.log ++
          [(ascii "evalsha", Value.str (hexEncodeToString (sha1Sum F.Buffer)) :: args),
           (ascii "eval", Value.str F.Buffer :: args)] ∧
    sentCommands (S.Run fs (fuel + 2) s name args).redisSession.log
      = sentCommands s.log ++
          [(ascii "evalsha", Value.str (hexEncodeToString (sha1Sum F.Buffer)) :: args),
           (ascii "eval", Value.str F.Buffer :: args)] := by
  have hne : e ≠ GoError.EOF := by
    intro h
    rw [h, Contains_EOF_noScript] at hN
    exact Bool.noConfusion hN
  have h0 : (s.transport 0).isEOF = false := by simp [Reply.isEOF, h0E, hne]
  obtain ⟨hn0, hk0⟩ := nextReply_of_not_isEOF s h0
  have hsha := RunLookup_hashed S fs name S1 fs1 F hH hF
  rw [Run_of_lookup S fs (fuel + 2) s name args S1 fs1 F hF, ← hsha]
  simp only []
  have hT0 : s.nextReply.Type_ = ReplyType.ErrorReply := by rw [hn0]; exact h0T
  have hE0 : s.nextReply.Err = some e := by rw [hn0]; exact h0E
  rw [Cmd_noScript_step F (fuel + 1) _ s _ args e hT0 hE0 hN]
  have htr := (SendCommand_spec s (ascii "evalsha") (Value.str F.ScriptSHA1 :: args)).2.2.1
  rw [hk0] at htr
  have hs1 : ((s.SendCommand (ascii "evalsha") (Value.str F.ScriptSHA1 :: args)).1).transport 0
      = r := by rw [htr]; exact h1
  have h1e : (((s.SendCommand (ascii "evalsha") (Value.str F.ScriptSHA1 :: args)).1).transport
      0).isEOF = false := by simp [Reply.isEOF, hs1, hrE]
  obtain ⟨hn1, hk1⟩ := nextReply_of_not_isEOF _ h1e
  have hT1 : ((s.SendCommand (ascii "evalsha")
      (Value.str F.ScriptSHA1 :: args)).1).nextReply.Type_ ≠ ReplyType.ErrorReply := by
    rw [hn1, hs1]; exact hrT
  rw [Cmd_no_error F fuel _ _ _ hT1]
  refine ⟨by simp only []; rw [hn1, hs1], ?_, ?_⟩
  · simp only []
    rw [SendCommand_wire, SendCommand_wire, hk0, hk1]
    simp
  · simp only []
    rw [SendCommand_sent, SendCommand_sent]
    simp

theorem scriptsEmpty_hashed : scriptsEmpty.hashed := by
  intro name F h
  simp [scriptsEmpty] at h

theorem scriptsCached_hashed : scriptsCached.hashed := by
  intro name F h
  simp only [scriptsCached] at h
  split_ifs at h
  simp only [Option.some.injEq] at h
  rw [← h]
  exact scriptSignup_hash

/-- C2, on the first `Run` of `Signup.lua` against a store that has lost the
script. -/
theorem Run_fallback_witness :
    (scriptsEmpty.Run fsSignup 2 (sessionOn transportNoScriptOnce) (ascii "Signup.lua")
        [Value.int 0, Value.str (ascii "[]"), Value.int 1700000001]).out
      = Outcome.ret (some replyBulk, none) ∧
    wireCommands (scriptsEmpty.Run fsSignup 2 (sessionOn transportNoScriptOnce)
        (ascii "Signup.lua")
        [Value.int 0, Value.str (ascii "[]"), Value.int 1700000001]).redisSession.log
      = [(ascii "evalsha",
            [Value.str (hexEncodeToString (sha1Sum scriptSignup.Buffer)),
             Value.int 0, Value.str (ascii "[]"), Value.int 1700000001]),
         (ascii "eval",
            [Value.str scriptSignup.Buffer,
             Value.int 0, Value.str (ascii "[]"), Value.int 1700000001])] :=
  have h := Run_fallback scriptsEmpty fsSignup 0 (sessionOn transportNoScriptOnce)
    (ascii "Signup.lua") [Value.int 0, Value.str (ascii "[]"), Value.int 1700000001]
    (scriptsEmpty.RunLookup fsSignup (ascii "Signup.lua")).1
    (scriptsEmpty.RunLookup fsSignup (ascii "Signup.lua")).2.1
    scriptSignup (GoError.other (ascii "NOSCRIPT No matching script. Please use EVAL."))
    replyBulk scriptsEmpty_hashed
    (Prod.ext rfl (Prod.ext rfl (by decide))) (by decide) (by decide) (by decide) (by decide)
    (by decide) (by decide)
  ⟨h.1, h.2.1⟩

/-- C3, on a cached script and a store that answers with a `WRONGTYPE` error. -/
theorem Run_error_reply_witness :
    (scriptsCached.Run fsSignup 2 (sessionOn transportWrongType) (ascii "Signup.lua")
        [Value.int 0]).out = Outcome.ret (none, replyWrongType.Err) ∧
    sentCommands (scriptsCached.Run fsSignup 2 (sessionOn transportWrongType)
        (ascii "Signup.lua") [Value.int 0]).redisSession.log
      = [(ascii "evalsha", [Value.str scriptSignup.ScriptSHA1, Value.int 0])] :=
  have h := (Run_error_reply scriptsCached fsSignup 0 (sessionOn transportWrongType)
    (ascii "Signup.lua") [Value.int 0]
    (scriptsCached.RunLookup fsSignup (ascii "Signup.lua")).1
    (scriptsCached.RunLookup fsSignup (ascii "Signup.lua")).2.1
    scriptSignup
    (GoError.other (ascii "WRONGTYPE Operation against a key holding the wrong kind of value"))
    (Prod.ext rfl (Prod.ext rfl (by decide))) (by decide) (by decide)).2 (by decide)
  ⟨h.1, h.2.1⟩

theorem noScriptAlways_step (s : RedisSession) (cmd : GoString) (v : List Value)
    (h : s.transport = transportNoScriptAlways) :
    s.nextReply = replyNoScript ∧ (s.SendCommand cmd v).1.transport = transportNoScriptAlways := by
  constructor
  · simp [RedisSession.nextReply, h, transportNoScriptAlways]
  · rw [(SendCommand_spec s cmd v).2.2.1, h]
    rfl

theorem Cmd_noScriptAlways (F : ScriptFile) (fuel : Nat) :
    ∀ (cmd : GoString) (s : RedisSession) (a : Value) (rest : List Value),
      s.transport = transportNoScriptAlways →
      (F.Cmd fuel cmd s (a :: rest)).2 = Outcome.outOfFuel ∧
      (sentCommands (F.Cmd fuel cmd s (a :: rest)).1.log).length
        = (sentCommands s.log).length + fuel := by
  induction fuel with
  | zero => intro cmd s a rest _; simp [ScriptFile.Cmd]
  | succ fuel ih =>
    intro cmd s a rest h
    obtain ⟨hn, ht⟩ := noScriptAlways_step s cmd (a :: rest) h
    have hT : s.nextReply.Type_ = ReplyType.ErrorReply := by rw [hn]; rfl
    have hE : s.nextReply.Err
        = some (GoError.other (ascii "NOSCRIPT No matching script. Please use EVAL.")) := by
      rw [hn]; rfl
    rw [Cmd_noScript_step F fuel cmd s a rest _ hT hE (by decide)]
    obtain ⟨h1, h2⟩ := ih (ascii "eval") (s.SendCommand cmd (a :: rest)).1
      (Value.str F.Buffer) rest ht
    refine ⟨h1, ?_⟩
    rw [h2, SendCommand_sent]
    simp
    omega

/-- C1, what the code does. After a `NOSCRIPT` error on `evalsha` the method
calls itself with `eval`, and that call falls back again: on a store that
answers `NOSCRIPT` twice and then succeeds, `Cmd` sends `evalsha`, `eval` and
`eval` once more and returns the third reply; on a store that answers
`NOSCRIPT` to everything it never returns, whatever the budget, and sends one
command for every unit of it. -/
theorem Cmd_fallback_repeats :
    sentCommands
        (scriptSignup.Cmd 3 (ascii "evalsha") (sessionOn transportNoScriptTwice)
          [Value.str scriptSignup.ScriptSHA1, Value.int 0]).1.log
      = [(ascii "evalsha", [Value.str scriptSignup.ScriptSHA1, Value.int 0]),
         (ascii "eval", [Value.str scriptSignup.Buffer, Value.int 0]),
         (ascii "eval", [Value.str scriptSignup.Buffer, Value.int 0])] ∧
    (scriptSignup.Cmd 3 (ascii "evalsha") (sessionOn transportNoScriptTwice)
          [Value.str scriptSignup.ScriptSHA1, Value.int 0]).2
      = Outcome.ret (some replyBulk, none) ∧
    (∀ fuel,
      (scriptSignup.Cmd fuel (ascii "evalsha") (sessionOn transportNoScriptAlways)
          [Value.str scriptSignup.ScriptSHA1, Value.int 0]).2 = Outcome.outOfFuel ∧
      (sentCommands
        (scriptSignup.Cmd fuel (ascii "evalsha") (sessionOn transportNoScriptAlways)
          [Value.str scriptSignup.ScriptSHA1, Value.int 0]).1.log).length = fuel) := by
  refine ⟨by decide, by decide, fun fuel => ?_⟩
  have h := Cmd_noScriptAlways scriptSignup fuel (ascii "evalsha")
    (sessionOn transportNoScriptAlways) (Value.str scriptSignup.ScriptSHA1) [Value.int 0] rfl
  refine ⟨h.1, ?_⟩
  rw [h.2]
  simp [sessionOn, sentCommands]

theorem IsModfiy_of_stat (F : ScriptFile) (fs : FileSystem) (f : File) (t : Time)
    (hO : fs.disk 0 F.PathFile = Except.ok f) (hS : f.Stat = Except.ok t) :
    F.IsModfiy fs = ({ disk := fun n => fs.disk (n + 1),
                       log := fs.log ++ [FsEvent.open F.PathFile, FsEvent.stat f.name] },
                     !(Time.Equal t F.LastModTime), none) := by
  simp [ScriptFile.IsModfiy, FileSystem.Open, FileSystem.Stat, hO, hS]

theorem Load_of_read (S : Script) (fs : FileSystem) (name : GoString) (f : File) (t : Time)
    (b : GoString) (hO : fs.disk 0 (S.Path ++ ascii "/" ++ name) = Except.ok f)
    (hS : f.Stat = Except.ok t) (hR : f.ReadAll = Except.ok b) :
    S.Load fs name =
      ({ S with ScriptBuf := (mapSet S.ScriptBuf name
            { LastModTime := t, PathFile := S.Path ++ ascii "/" ++ name, Buffer := b,
              ScriptSHA1 := hexEncodeToString (sha1Sum b) }) },
       { disk := fun n => fs.disk (n + 1),
         log := fs.log ++ [FsEvent.open (S.Path ++ ascii "/" ++ name), FsEvent.stat f.name,
                           FsEvent.readAll f.name] },
       some { LastModTime := t, PathFile := S.Path ++ ascii "/" ++ name, Buffer := b,
              ScriptSHA1 := hexEncodeToString (sha1Sum b) },
       none) := by
  unfold Script.Load
  simp only [FileSystem.Open, FileSystem.Stat, FileSystem.ReadAll, hO, hS, hR]
  simp

theorem Time.Equal_iff (t u : Time) : Time.Equal t u = true ↔ t = u := by
  simp [Time.Equal]

theorem Load_ok_loads (S : Script) (fs : FileSystem) (name : GoString) (F : ScriptFile)
    (h : (S.Load fs name).2.2 = (some F, none)) :
    diskLoads (S.Load fs name).2.1.log = diskLoads fs.log + 1 := by
  unfold Script.Load at h ⊢
  simp only [FileSystem.Open, FileSystem.Stat, FileSystem.ReadAll] at h ⊢
  cases h0 : fs.disk 0 (S.Path ++ ascii "/" ++ name) with
  | error e => rw [h0] at h; simp at h
  | ok f =>
    rw [h0] at h
    simp only [] at h
    cases h1 : f.Stat with
    | error e => rw [h1] at h; simp at h
    | ok t =>
      rw [h1] at h
      simp only [] at h
      cases h2 : f.ReadAll with
      | error e => rw [h2] at h; simp at h
      | ok b => simp [h1, h2, diskLoads]

/-- C9, as amended. The map has an entry `F` for the name and the file of the
entry can be opened and stat-ed, with modification time `t`. If `t` equals the
stored time, `Run` makes the two calls of the check and no other (no `Load`),
leaves the map as it was and sends `evalsha` with the hash of `F`. If `t`
differs, earlier or later, `Run` performs a `Load` (a second `os.Open`); when
that `Load` gives an entry `F1`, the map holds `F1` under the name, the hash of
`F1` is that of the content just read and `evalsha` is sent with it; when that
`Load` fails, `Run` returns its error, the map is as it was and nothing is
sent. Two successive `Run`s on a readable file whose modification time does not
change perform one disk load in all. -/
theorem Run_reload (S : Script) (fs : FileSystem) (fuel : Nat) (s : RedisSession)
    (name : GoString) (args : List Value) (F : ScriptFile) (f : File) (t : Time)
    (hF : S.ScriptBuf name = some F)
    (hO : fs.disk 0 F.PathFile = Except.ok f) (hS : f.Stat = Except.ok t) :
    (t = F.LastModTime →
      (S.Run fs (fuel + 1) s name args).fs.log
        = fs.log ++ [FsEvent.open F.PathFile, FsEvent.stat f.name] ∧
      (S.Run fs (fuel + 1) s name args).S.ScriptBuf = S.ScriptBuf ∧
      ∃ rest, sentCommands (S.Run fs (fuel + 1) s name args).redisSession.log
        = sentCommands s.log ++ (ascii "evalsha", Value.str F.ScriptSHA1 :: args) :: rest) ∧
    (t ≠ F.LastModTime →
      S.RunLookup fs name = S.Load (F.IsModfiy fs).1 name ∧
      diskOpens (S.Run fs (fuel + 1) s name args).fs.log = diskOpens fs.log + 2 ∧
      (∀ F1, (S.Load (F.IsModfiy fs).1 name).2.2 = (some F1, none) →
        (S.Run fs (fuel + 1) s name args).S.ScriptBuf = mapSet S.ScriptBuf name F1 ∧
        (S.Run fs (fuel + 1) s name args).S.ScriptBuf name = some F1 ∧
        F1.ScriptSHA1 = hexEncodeToString (sha1Sum F1.Buffer) ∧
        diskLoads (S.Run fs (fuel + 1) s name args).fs.log = diskLoads fs.log + 1 ∧
        ∃ rest, sentCommands (S.Run fs (fuel + 1) s name args).redisSession.log
          = sentCommands s.log ++ (ascii "evalsha", Value.str F1.ScriptSHA1 :: args) :: rest) ∧
      (∀ e, (S.Load (F.IsModfiy fs).1 name).2.2.2 = some e →
        (S.Run fs (fuel + 1) s name args).out = Outcome.ret (none, some e) ∧
        (S.Run fs (fuel + 1) s name args).S.ScriptBuf = S.ScriptBuf ∧
        (S.Run fs (fuel + 1) s name args).redisSession.log = s.log)) ∧
    (∀ (S0 : Script) (fs0 : FileSystem) (f0 f1 : File) (t0 : Time) (b : GoString),
      S0.ScriptBuf name = none →
      fs0.disk 0 (S0.Path ++ ascii "/" ++ name) = Except.ok f0 →
      f0.Stat = Except.ok t0 → f0.ReadAll = Except.ok b →
      fs0.disk 1 (S0.Path ++ ascii "/" ++ name) = Except.ok f1 →
      f1.Stat = Except.ok t0 →
      diskLoads (S0.Run fs0 (fuel + 1) s name args).fs.log = diskLoads fs0.log + 1 ∧
      diskLoads
        ((S0.Run fs0 (fuel + 1) s name args).S.Run (S0.Run fs0 (fuel + 1) s name args).fs
          (fuel + 1) (S0.Run fs0 (fuel + 1) s name args).redisSession name args).fs.log
        = diskLoads fs0.log + 1 ∧
      ((S0.Run fs0 (fuel + 1) s name args).S.Run (S0.Run fs0 (fuel + 1) s name args).fs
          (fuel + 1) (S0.Run fs0 (fuel + 1) s name args).redisSession name args).S.ScriptBuf
        = (S0.Run fs0 (fuel + 1) s name args).S.ScriptBuf) := by
  have hI := IsModfiy_of_stat F fs f t hO hS
  refine ⟨fun ht => ?_, fun ht => ?_, ?_⟩
  · have hEq : (F.IsModfiy fs).2 = (false, none) := by
      rw [hI]; simp [Time.Equal, ht]
    have hL := RunLookup_fresh S fs name F hF hEq
    rw [Run_of_lookup S fs (fuel + 1) s name args _ _ F hL]
    refine ⟨by simp only []; rw [hI], rfl, ?_⟩
    exact Cmd_sent_first F fuel (ascii "evalsha") s (Value.str F.ScriptSHA1 :: args)
  · have hEq : (F.IsModfiy fs).2 = (true, none) := by
      rw [hI]; simp [Time.Equal, ht]
    have hL := RunLookup_stale S fs name F hF hEq
    have hfs := (Run_S S fs (fuel + 1) s name args).2
    refine ⟨hL, ?_, ?_, ?_⟩
    · rw [hfs, hL, Load_opens, (IsModfiy_log F fs).2]
    · intro F1 hF1
      rcases Load_cases S (F.IsModfiy fs).1 name with ⟨e1, h1, -⟩ | ⟨F2, h1, h2, h3, -⟩
      · rw [hF1] at h1; simp at h1
      · rw [hF1] at h1
        simp only [Prod.mk.injEq, Option.some.injEq, and_true] at h1
        subst h1
        have hR : S.RunLookup fs name
            = ((S.Load (F.IsModfiy fs).1 name).1, (S.Load (F.IsModfiy fs).1 name).2.1,
                some F1, none) := by
          rw [hL]
          exact Prod.ext rfl (Prod.ext rfl hF1)
        rw [Run_of_lookup S fs (fuel + 1) s name args _ _ F1 hR]
        simp only []
        refine ⟨by rw [h2], by rw [h2]; simp [mapSet], h3, ?_, ?_⟩
        · rw [Load_ok_loads S _ name F1 hF1, (IsModfiy_log F fs).1]
        · exact Cmd_sent_first F1 fuel (ascii "evalsha") s (Value.str F1.ScriptSHA1 :: args)
    · intro e he
      have hR : S.RunLookup fs name
          = ((S.Load (F.IsModfiy fs).1 name).1, (S.Load (F.IsModfiy fs).1 name).2.1,
              (S.Load (F.IsModfiy fs).1 name).2.2.1, some e) := by
        rw [hL, ← he]
      rw [Run_of_lookup_error S fs (fuel + 1) s name args _ _ _ e hR,
        Load_error_unchanged S _ name e he]
      exact ⟨rfl, rfl, rfl⟩
  · intro S0 fs0 f0 f1 t0 b hS0 hO0 hSt0 hR0 hO1 hSt1
    have hLoad := Load_of_read S0 fs0 name f0 t0 b hO0 hSt0 hR0
    have hL0 : S0.RunLookup fs0 name = S0.Load fs0 name := by
      unfold Script.RunLookup
      rw [hS0]
    rw [hLoad] at hL0
    rw [Run_of_lookup S0 fs0 (fuel + 1) s name args _ _ _ hL0]
    simp only []
    have hI1 := IsModfiy_of_stat
      { LastModTime := t0, PathFile := S0.Path ++ ascii "/" ++ name, Buffer := b,
        ScriptSHA1 := hexEncodeToString (sha1Sum b) }
      { disk := fun n => fs0.disk (n + 1),
        log := fs0.log ++ [FsEvent.open (S0.Path ++ ascii "/" ++ name), FsEvent.stat f0.name,
                           FsEvent.readAll f0.name] }
      f1 t0 hO1 hSt1
    have hEq := congrArg Prod.snd hI1
    simp only [Time.Equal, decide_True, Bool.not_true] at hEq
    have hL1 := RunLookup_fresh
      { S0 with ScriptBuf := (mapSet S0.ScriptBuf name
          { LastModTime := t0, PathFile := S0.Path ++ ascii "/" ++ name, Buffer := b,
            ScriptSHA1 := hexEncodeToString (sha1Sum b) }) }
      { disk := fun n => fs0.disk (n + 1),
        log := fs0.log ++ [FsEvent.open (S0.Path ++ ascii "/" ++ name), FsEvent.stat f0.name,
                           FsEvent.readAll f0.name] }
      name _ (by simp [mapSet]) hEq
    rw [Run_of_lookup _ _ (fuel + 1) _ name args _ _ _ hL1]
    simp only []
    rw [hI1]
    refine ⟨?_, ?_, trivial⟩
    · simp [diskLoads]
    · simp [diskLoads]

/-- C9 as amended, on a cached script whose file has kept its modification
time. -/
theorem Run_reload_witness :
    (scriptsCached.Run fsSignup 1 (sessionOn transportNoScriptOnce) (ascii "Signup.lua")
        [Value.int 0]).fs.log
      = [FsEvent.open (ascii "./script/Signup.lua"), FsEvent.stat (ascii "./script/Signup.lua")] ∧
    (scriptsCached.Run fsSignup 1 (sessionOn transportNoScriptOnce) (ascii "Signup.lua")
        [Value.int 0]).S.ScriptBuf = scriptsCached.ScriptBuf :=
  have h := (Run_reload scriptsCached fsSignup 0 (sessionOn transportNoScriptOnce)
    (ascii "Signup.lua") [Value.int 0] scriptSignup fileSignup 1700000000
    (by decide) rfl rfl).1 (by decide)
  ⟨h.1, h.2.1⟩

/-- C9 fails as stated. The map holds an entry for `Signup.lua`; its file can
be opened and stat-ed and its modification time differs from the stored one,
but it cannot be read: `Run` returns the error of the read, the entry is not
replaced and no `evalsha` is sent. -/
theorem Run_reload_counterexample :
    scriptsCached.ScriptBuf (ascii "Signup.lua") = some scriptSignup ∧
    (scriptSignup.IsModfiy fsSignupIsDir).2 = (true, none) ∧
    (scriptsCached.Run fsSignupIsDir 2 (sessionOn transportNoScriptOnce) (ascii "Signup.lua")
        [Value.int 0]).out = Outcome.ret (none, some errIsDir) ∧
    (scriptsCached.Run fsSignupIsDir 2 (sessionOn transportNoScriptOnce) (ascii "Signup.lua")
        [Value.int 0]).S.ScriptBuf (ascii "Signup.lua") = some scriptSignup ∧
    (scriptsCached.Run fsSignupIsDir 2 (sessionOn transportNoScriptOnce) (ascii "Signup.lua")
        [Value.int 0]).redisSession.log = [] := by
  decide

/-! ## `RedisConnectionPool` -/

theorem RunConnect_ok (host : GoString) (port : Int) (nets : Nat → Network) (n : Nat) :
    ∀ (i : Nat) (st : PoolRun), (∀ j, j < n → (nets (i + j)).dial 0 = none) →
      (RedisConnectionPool.RunConnect host port nets n i st).attempts
        = st.attempts ++ List.range' i n ∧
      (RedisConnectionPool.RunConnect host port nets n i st).e = st.e ∧
      (RedisConnectionPool.RunConnect host port nets n i st).freeList
        = st.freeList ++ List.range' i n := by
  induction n with
  | zero => intro i st _; simp [RedisConnectionPool.RunConnect]
  | succ n ih =>
    intro i st h
    have h0 : (nets i).dial 0 = none := by simpa using h 0 (Nat.succ_pos n)
    have hrest : ∀ j, j < n → (nets (i + 1 + j)).dial 0 = none := by
      intro j hj
      have := h (j + 1) (by omega)
      rwa [show i + 1 + j = i + (j + 1) by omega]
    simp only [RedisConnectionPool.RunConnect, RedisSession.Connect, NewRedisSession, h0]
    obtain ⟨h1, h2, h3⟩ := ih (i + 1)
      { st with Sessions := st.Sessions.set i (some
                  { RedisAddr := host ++ ascii ":" ++ ascii (toString port),
                    transport := (nets i).transport,
                    dial := fun n => (nets i).dial (n + 1),
                    log := [] ++ [ConnEvent.connect] }),
                attempts := st.attempts ++ [i], freeList := st.freeList ++ [i] } hrest
    refine ⟨?_, ?_, ?_⟩
    · rw [h1]; simp [List.range'_succ]
    · rw [h2]
    · rw [h3]; simp [List.range'_succ]

theorem RunConnect_fail (host : GoString) (port : Int) (nets : Nat → Network) (n : Nat) :
    ∀ (i : Nat) (st : PoolRun) (k : Nat) (err : GoError), k < n →
      (∀ j, j < k → (nets (i + j)).dial 0 = none) → (nets (i + k)).dial 0 = some err →
      (RedisConnectionPool.RunConnect host port nets n i st).attempts
        = st.attempts ++ List.range' i (k + 1) ∧
      (RedisConnectionPool.RunConnect host port nets n i st).e
        = some (connectError (host ++ ascii ":" ++ ascii (toString port)) err) ∧
      (RedisConnectionPool.RunConnect host port nets n i st).freeList
        = st.freeList ++ List.range' i k := by
  induction n with
  | zero => intro i st k err hk; omega
  | succ n ih =>
    intro i st k err hk hpre hfail
    cases k with
    | zero =>
      have h0 : (nets i).dial 0 = some err := by simpa using hfail
      simp [RedisConnectionPool.RunConnect, RedisSession.Connect, NewRedisSession, h0]
    | succ k =>
      have h0 : (nets i).dial 0 = none := by simpa using hpre 0 (Nat.succ_pos k)
      have hrest : ∀ j, j < k → (nets (i + 1 + j)).dial 0 = none := by
        intro j hj
        have := hpre (j + 1) (by omega)
        rwa [show i + 1 + j = i + (j + 1) by omega]
      have hfail2 : (nets (i + 1 + k)).dial 0 = some err := by
        rwa [show i + 1 + k = i + (k + 1) by omega]
      simp only [RedisConnectionPool.RunConnect, RedisSession.Connect, NewRedisSession, h0]
      obtain ⟨h1, h2, h3⟩ := ih (i + 1)
        { st with Sessions := st.Sessions.set i (some
                    { RedisAddr := host ++ ascii ":" ++ ascii (toString port),
                      transport := (nets i).transport,
                      dial := fun n => (nets i).dial (n + 1),
                      log := [] ++ [ConnEvent.connect] }),
                  attempts := st.attempts ++ [i], freeList := st.freeList ++ [i] }
        k err (by omega) hrest hfail2
      refine ⟨?_, ?_, ?_⟩
      · rw [h1]; simp [List.range'_succ]
      · rw [h2]
      · rw [h3]; simp [List.range'_succ]

theorem RunConnect_e_none (host : GoString) (port : Int) (nets : Nat → Network) (n : Nat) :
    ∀ (i : Nat) (st : PoolRun),
      (RedisConnectionPool.RunConnect host port nets n i st).e = none →
      ∀ j, j < n → (nets (i + j)).dial 0 = none := by
  induction n with
  | zero => intro i st _ j hj; omega
  | succ n ih =>
    intro i st h j hj
    cases h0 : (nets i).dial 0 with
    | some err =>
      simp [RedisConnectionPool.RunConnect, RedisSession.Connect, NewRedisSession, h0] at h
    | none =>
      simp only [RedisConnectionPool.RunConnect, RedisSession.Connect, NewRedisSession, h0] at h
      cases j with
      | zero => simpa using h0
      | succ j =>
        have := ih (i + 1) _ h j (by omega)
        rwa [show i + 1 + j = i + (j + 1) by omega] at this


theorem RunInit_eq (N : Nat) (host : GoString) (port : Int) (nets : Nat → Network) :
    (NewRedisConnectionPool N host port).RunInit nets
      = RedisConnectionPool.RunConnect host port nets N 0
          { Sessions := List.replicate N none, attempts := [], e := none, freeList := [] } := by
  simp [RedisConnectionPool.RunInit, NewRedisConnectionPool]

theorem RunInit_ok (N : Nat) (host : GoString) (port : Int) (nets : Nat → Network)
    (hall : ∀ j, j < N → (nets j).dial 0 = none) :
    ((NewRedisConnectionPool N host port).RunInit nets).attempts = List.range N ∧
    ((NewRedisConnectionPool N host port).RunInit nets).e = none ∧
    ((NewRedisConnectionPool N host port).RunInit nets).freeList = List.range N := by
  obtain ⟨h1, h2, h3⟩ := RunConnect_ok host port nets N 0
    { Sessions := List.replicate N none, attempts := [], e := none, freeList := [] }
    (by simpa using hall)
  rw [RunInit_eq]
  refine ⟨?_, h2, ?_⟩
  · rw [h1]; simp [List.range_eq_range']
  · rw [h3]; simp [List.range_eq_range']

/-- C8. `Init` on a pool of capacity `N` dials the sessions in the order of
their index and stops at the first failure: if the dial of index `k` is the
first to fail, `Init` returns the error `Connect` makes of it, the indices
dialled are `0..k` and no others, and `Run` returns without entering the broker
loop; if the `N` dials succeed, `Init` returns nil and the broker starts on the
free list `0..N-1`, in that order. -/
theorem Init_first_failure (N : Nat) (host : GoString) (port : Int) (nets : Nat → Network) :
    (∀ k err, k < N → (∀ j, j < k → (nets j).dial 0 = none) → (nets k).dial 0 = some err →
      (NewRedisConnectionPool N host port).Init nets
        = some (connectError (host ++ ascii ":" ++ ascii (toString port)) err) ∧
      ((NewRedisConnectionPool N host port).RunInit nets).attempts = List.range (k + 1) ∧
      ((NewRedisConnectionPool N host port).RunInit nets).freeList = List.range k ∧
      (NewRedisConnectionPool N host port).RunBroker nets = none) ∧
    ((∀ j, j < N → (nets j).dial 0 = none) →
      (NewRedisConnectionPool N host port).Init nets = none ∧
      ((NewRedisConnectionPool N host port).RunInit nets).attempts = List.range N ∧
      (NewRedisConnectionPool N host port).RunBroker nets = some (List.range N)) := by
  constructor
  · intro k err hk hpre hfail
    obtain ⟨h1, h2, h3⟩ := RunConnect_fail host port nets N 0
      { Sessions := List.replicate N none, attempts := [], e := none, freeList := [] }
      k err hk (by simpa using hpre) (by simpa using hfail)
    refine ⟨?_, ?_, ?_, ?_⟩
    · rw [RedisConnectionPool.Init, RunInit_eq, h2]
    · rw [RunInit_eq, h1]; simp [List.range_eq_range']
    · rw [RunInit_eq, h3]; simp [List.range_eq_range']
    · rw [RedisConnectionPool.RunBroker, RunInit_eq, h2]
  · intro hall
    obtain ⟨h1, h2, h3⟩ := RunInit_ok N host port nets hall
    refine ⟨?_, h1, ?_⟩
    · rw [RedisConnectionPool.Init, h2]
    · rw [RedisConnectionPool.RunBroker, h2]
      simp only []
      rw [h3]

/-- C8, on a pool of five sessions of which the third cannot be dialled. -/
theorem Init_first_failure_witness :
    (NewRedisConnectionPool 5 (ascii "127.0.0.1") 6379).Init netsThirdRefused
      = some (connectError (ascii "127.0.0.1" ++ ascii ":" ++ ascii (toString (6379 : Int)))
          errRefused) ∧
    ((NewRedisConnectionPool 5 (ascii "127.0.0.1") 6379).RunInit netsThirdRefused).attempts
      = List.range 3 ∧
    (NewRedisConnectionPool 5 (ascii "127.0.0.1") 6379).RunBroker netsThirdRefused = none :=
  have h := (Init_first_failure 5 (ascii "127.0.0.1") 6379 netsThirdRefused).1 2 errRefused
    (by decide) (by decide) (by decide)
  ⟨h.1, h.2.1, h.2.2.2⟩

theorem RunBroker_some (N : Nat) (host : GoString) (port : Int) (nets : Nat → Network)
    (freeList : List SessionPtr)
    (h : (NewRedisConnectionPool N host port).RunBroker nets = some freeList) :
    freeList = List.range N := by
  have he : ((NewRedisConnectionPool N host port).RunInit nets).e = none := by
    unfold RedisConnectionPool.RunBroker at h
    cases hE : ((NewRedisConnectionPool N host port).RunInit nets).e with
    | none => rfl
    | some err => rw [hE] at h; simp at h
  have hall : ∀ j, j < N → (nets j).dial 0 = none := by
    intro j hj
    rw [RunInit_eq] at he
    simpa using RunConnect_e_none host port nets N 0 _ he j hj
  obtain ⟨-, h2, h3⟩ := RunInit_ok N host port nets hall
  unfold RedisConnectionPool.RunBroker at h
  rw [h2] at h
  simp only [Option.some.injEq] at h
  rw [← h, h3]

theorem dropHeld_perm (cp : Caller × SessionPtr) (held : List (Caller × SessionPtr))
    (h : cp ∈ held) : (held.map Prod.snd).Perm (cp.2 :: (dropHeld cp held).map Prod.snd) := by
  induction held with
  | nil => simp at h
  | cons x xs ih =>
    by_cases hx : x = cp
    · simp [dropHeld, hx]
    · have hmem : cp ∈ xs := by
        rcases List.mem_cons.mp h with h1 | h1
        · exact absurd h1.symm hx
        · exact h1
      simp only [dropHeld, hx, if_false, List.map_cons]
      exact ((ih hmem).cons x.2).trans (List.Perm.swap _ _ _)

theorem PoolInv_step (N : Nat) (st : PoolState) (a : PoolAction) (hI : PoolInv N st)
    (hO : a.owned st = true) : PoolInv N (st.step a) := by
  unfold PoolInv at hI ⊢
  cases a with
  | acquire c =>
    cases hfl : st.freeList with
    | nil =>
      simp only [PoolState.step, brokerSend, hfl, PoolState.heldSessions]
      simpa [PoolState.heldSessions, hfl] using hI
    | cons t rest =>
      simp only [PoolState.step, brokerSend, hfl, PoolState.heldSessions]
      simpa [PoolState.heldSessions, hfl] using hI
  | release c s =>
    cases s with
    | none => simp [PoolAction.owned] at hO
    | some p =>
      have hmem : (c, p) ∈ st.held := by simpa [PoolAction.owned] using hO
      have h1 := dropHeld_perm (c, p) st.held hmem
      simp only [PoolState.step, RedisConnectionPool.Release, brokerRecv,
        PoolState.heldSessions]
      refine List.Perm.trans ?_ hI
      simp only [PoolState.heldSessions]
      have h2 : ((dropHeld (c, p) st.held).map Prod.snd ++ (st.freeList ++ [p])).Perm
          (p :: ((dropHeld (c, p) st.held).map Prod.snd) ++ st.freeList) := by
        rw [← List.append_assoc]
        exact (List.perm_append_singleton p _).trans (by simp)
      exact h2.trans (List.Perm.append_right _ h1.symm)

theorem PoolInv_run (N : Nat) (acts : List PoolAction) :
    ∀ st : PoolState, PoolInv N st → st.ownedRun acts = true → PoolInv N (st.run acts) := by
  induction acts with
  | nil => intro st hI _; simpa [PoolState.run] using hI
  | cons a acts ih =>
    intro st hI hO
    simp only [PoolState.ownedRun, Bool.and_eq_true] at hO
    have := ih (st.step a) (PoolInv_step N st a hI hO.1) hO.2
    simpa [PoolState.run] using this

theorem PoolInv_start (N : Nat) : PoolInv N (PoolState.start (List.range N)) := by
  simp [PoolInv, PoolState.start, PoolState.heldSessions]

theorem holders_length (held : List (Caller × SessionPtr)) (p : SessionPtr) :
    ((held.filter (fun cp => decide (cp.2 = p))).map Prod.fst).length
      = (held.map Prod.snd).count p := by
  induction held with
  | nil => simp
  | cons x xs ih =>
    by_cases hx : x.2 = p
    · simp [List.filter_cons, hx, List.count_cons] at ih ⊢
      exact ih
    · simp [List.filter_cons, hx, List.count_cons] at ih ⊢
      exact ih

/-- C7. A pool of capacity `N` whose `Init` succeeded, after any sequence of
steps in which callers take what the broker offers (the front of the free list,
or nil when it is empty) and release only sessions they hold: each of the `N`
sessions is either in the free list and held by nobody, or out of the free list
and held by exactly one caller; nothing else is in the free list or held; the
free list has no duplicates; at most `N` sessions are held; and the session the
broker offers next is held by nobody, so that a session is not handed out a
second time before it is released. -/
theorem pool_partition (N : Nat) (host : GoString) (port : Int) (nets : Nat → Network)
    (freeList : List SessionPtr) (acts : List PoolAction)
    (hB : (NewRedisConnectionPool N host port).RunBroker nets = some freeList)
    (hO : (PoolState.start freeList).ownedRun acts = true) :
    (NewRedisConnectionPool N host port).Init nets = none ∧
    (∀ p, p < N →
      (p ∈ ((PoolState.start freeList).run acts).freeList ∧
        ((PoolState.start freeList).run acts).holders p = []) ∨
      (p ∉ ((PoolState.start freeList).run acts).freeList ∧
        ∃ c, ((PoolState.start freeList).run acts).holders p = [c])) ∧
    (∀ p, p ∈ ((PoolState.start freeList).run acts).freeList ∨
        p ∈ ((PoolState.start freeList).run acts).heldSessions → p < N) ∧
    ((PoolState.start freeList).run acts).freeList.Nodup ∧
    ((PoolState.start freeList).run acts).held.length ≤ N ∧
    (∀ t rest, brokerSend ((PoolState.start freeList).run acts).freeList = (some t, rest) →
      ((PoolState.start freeList).run acts).holders t = []) := by
  have hfl := RunBroker_some N host port nets freeList hB
  subst hfl
  have hperm := PoolInv_run N acts _ (PoolInv_start N) hO
  generalize (PoolState.start (List.range N)).run acts = st at hperm ⊢
  unfold PoolInv at hperm
  have hnd : (st.heldSessions ++ st.freeList).Nodup := hperm.nodup_iff.mpr (List.nodup_range N)
  obtain ⟨hndH, hndF, hdisj⟩ := List.nodup_append.mp hnd
  have hmem : ∀ p, p ∈ st.heldSessions ++ st.freeList ↔ p < N := by
    intro p
    rw [hperm.mem_iff, List.mem_range]
  have hlen : st.heldSessions.length + st.freeList.length = N := by
    have := hperm.length_eq
    simpa using this
  have hhold : ∀ p, (st.holders p).length = st.heldSessions.count p :=
    fun p => holders_length st.held p
  have hfree : ∀ p, p ∈ st.freeList → st.holders p = [] := by
    intro p hp
    have hnot : p ∉ st.heldSessions := fun h => hdisj h hp
    have := hhold p
    rw [List.count_eq_zero_of_not_mem hnot] at this
    exact List.length_eq_zero.mp this
  refine ⟨?_, ?_, ?_, hndF, ?_, ?_⟩
  · unfold RedisConnectionPool.RunBroker at hB
    unfold RedisConnectionPool.Init
    cases hE : ((NewRedisConnectionPool N host port).RunInit nets).e with
    | none => rfl
    | some err => rw [hE] at hB; simp at hB
  · intro p hp
    rcases List.mem_append.mp ((hmem p).mpr hp) with h | h
    · right
      refine ⟨fun hf => hdisj h hf, ?_⟩
      have := hhold p
      rw [List.count_eq_one_of_mem hndH h] at this
      exact List.length_eq_one.mp this
    · exact Or.inl ⟨h, hfree p h⟩
  · intro p hp
    apply (hmem p).mp
    rcases hp with h | h
    · exact List.mem_append_right _ h
    · exact List.mem_append_left _ h
  · have : st.held.length = st.heldSessions.length := by simp [PoolState.heldSessions]
    omega
  · intro t rest ht
    apply hfree
    cases hfl : st.freeList with
    | nil => rw [hfl] at ht; simp [brokerSend] at ht
    | cons a l =>
      rw [hfl] at ht
      simp only [brokerSend, Prod.mk.injEq, Option.some.injEq] at ht
      rw [← ht.1]
      exact List.mem_cons_self _ _

/-- C7, on a pool of two sessions and three callers. -/
theorem pool_partition_witness :
    ((PoolState.start [0, 1]).run
        [PoolAction.acquire 7, PoolAction.acquire 8, PoolAction.acquire 9,
         PoolAction.release 7 (some 0), PoolAction.acquire 9]).freeList.Nodup ∧
    ((PoolState.start [0, 1]).run
        [PoolAction.acquire 7, PoolAction.acquire 8, PoolAction.acquire 9,
         PoolAction.release 7 (some 0), PoolAction.acquire 9]).held.length ≤ 2 :=
  have h := pool_partition 2 (ascii "127.0.0.1") 6379 netsUp [0, 1]
    [PoolAction.acquire 7, PoolAction.acquire 8, PoolAction.acquire 9,
     PoolAction.release 7 (some 0), PoolAction.acquire 9] (by decide) (by decide)
  ⟨h.2.2.2.1, h.2.2.2.2.1⟩

/-- C10. `Release` checks no ownership: a non-nil session is appended to the
free list whatever the state and whoever the caller, and a nil session leaves
the state as it is. On a pool of one session, after the steps acquire, release,
release again, acquire, acquire, the session is held by two callers at once and
the partition of the sessions between free list and holders is lost. -/
theorem Release_unchecked :
    (∀ (freeList : List SessionPtr) (p : SessionPtr),
      RedisConnectionPool.Release freeList (some p) = freeList ++ [p]) ∧
    (∀ (st : PoolState) (c : Caller) (p : SessionPtr),
      (st.step (PoolAction.release c (some p))).freeList = st.freeList ++ [p]) ∧
    (∀ (st : PoolState) (c : Caller), st.step (PoolAction.release c none) = st) ∧
    (NewRedisConnectionPool 1 (ascii "127.0.0.1") 6379).RunBroker netsUp = some [0] ∧
    (PoolState.start [0]).run
        [PoolAction.acquire 1, PoolAction.release 1 (some 0), PoolAction.release 1 (some 0),
         PoolAction.acquire 1, PoolAction.acquire 2]
      = { freeList := [], held := [(1, 0), (2, 0)] } ∧
    ((PoolState.start [0]).run
        [PoolAction.acquire 1, PoolAction.release 1 (some 0), PoolAction.release 1 (some 0),
         PoolAction.acquire 1, PoolAction.acquire 2]).holders 0 = [1, 2] ∧
    ¬ PoolInv 1 ((PoolState.start [0]).run
        [PoolAction.acquire 1, PoolAction.release 1 (some 0), PoolAction.release 1 (some 0),
         PoolAction.acquire 1, PoolAction.acquire 2]) := by
  refine ⟨fun _ _ => rfl, fun _ _ _ => rfl, fun _ _ => rfl, by decide, by decide, by decide, ?_⟩
  intro h
  have hl := (show (List.Perm _ _) from h).length_eq
  revert hl
  decide

end LtUserServer
